import Mathlib

/-!
Verification development for the `reqcap` response path-filter engine
(`reqcap/filters.py`) and snapshot differ (`reqcap/core.py`).

The Python code is shallowly embedded: decoded JSON values become the
inductive type `Value` (Python `None`/`bool`/`int`/`str`/`list`/`dict`);
Python functions become Lean functions on `Value`.  Python code that can
raise an uncaught exception (`IndexError` from a negative list-index
assignment, `ValueError` from `int("-")` on a malformed slice bound)
is embedded as an `Option`-returning function, `none` meaning the
exception.  In-place mutation of the result tree is translated to
structural rebuilding of the output value (the observable output value
is unchanged by this translation; input aliasing effects are treated
separately by an explicit heap model further below).

Modelling notes, fixed once for the whole file:
  * JSON numbers are modelled as `Int` (every number in the claims and
    tests is an integer; float formatting plays no role in any claim).
  * Python's `str.strip`/`str.lower` are modelled on ASCII data
    (`trim_chars` / `ascii_lower`); all keys and specs in the claims
    are ASCII.
  * Python `==` on decoded JSON values (dict comparison ignores
    insertion order, `True == 1`) is modelled by `py_eq`.
-/

set_option maxHeartbeats 1000000

namespace Reqcap

/-- A decoded JSON value: the dynamic type the whole engine operates on.
`null` also stands for Python `None`. -/
inductive Value where
  | null
  | bool (b : Bool)
  | num (n : Int)
  | str (s : String)
  | arr (elems : List Value)
  | obj (fields : List (String × Value))
deriving Repr, Inhabited

/-- First value bound to an exactly-equal key (Python `d[k]` / `k in d`;
dicts decoded from JSON have unique keys, so first match is the match). -/
def lookup_field {α : Type} : List (String × α) → String → Option α
  | [], _ => none
  | (k, v) :: rest, key => if k = key then some v else lookup_field rest key

mutual

/-- Python `==` between two decoded JSON values: dict comparison is by
key set and values (insertion order immaterial), list comparison is
pointwise, and `True == 1` / `False == 0` as in Python. -/
def py_eq : Value → Value → Bool
  | .null, .null => true
  | .bool a, .bool b => a == b
  | .bool a, .num m => (if a then (1 : Int) else 0) == m
  | .num n, .bool b => n == (if b then (1 : Int) else 0)
  | .num n, .num m => n == m
  | .str a, .str b => a == b
  | .arr l1, .arr l2 => py_eq_list l1 l2
  | .obj f1, .obj f2 => f1.length == f2.length && py_eq_fields f1 f2
  | _, _ => false

def py_eq_list : List Value → List Value → Bool
  | [], [] => true
  | x :: xs, y :: ys => py_eq x y && py_eq_list xs ys
  | _, _ => false

def py_eq_fields : List (String × Value) → List (String × Value) → Bool
  | [], _ => true
  | (k, v) :: rest, f2 =>
      (match lookup_field f2 k with
       | some w => py_eq v w
       | none => false) && py_eq_fields rest f2

end

/-- Keys of an association list. -/
def keys_of (fields : List (String × Value)) : List String := fields.map Prod.fst

/-- No string occurs twice. -/
def nodup_keys : List String → Bool
  | [] => true
  | k :: ks => !ks.contains k && nodup_keys ks

mutual

/-- Well-formedness of a decoded JSON value: every object has unique
keys (guaranteed for anything produced by Python's `json` decoder). -/
def wf_value : Value → Bool
  | .null | .bool _ | .num _ | .str _ => true
  | .arr l => wf_list l
  | .obj f => nodup_keys (f.map Prod.fst) && wf_fields f

def wf_list : List Value → Bool
  | [] => true
  | x :: xs => wf_value x && wf_list xs

def wf_fields : List (String × Value) → Bool
  | [] => true
  | (_, v) :: rest => wf_value v && wf_fields rest

end

/-! ## Path segments and the path parser (`_parse_path_segments`) -/

/-- One typed segment of a parsed filter path, as documented at the top
of `filters.py`: `str` → key, `int` → index, `None` → iterate,
`(start, stop)` → slice. -/
inductive Seg where
  | key (k : String)
  | idx (i : Int)
  | iter
  | slice (start : Option Int) (stop : Option Int)
deriving Repr, DecidableEq

/-- ASCII model of Python `str.lower` on one character. -/
def ascii_lower (c : Char) : Char :=
  if 'A' ≤ c && c ≤ 'Z' then Char.ofNat (c.toNat + 32) else c

def lower_chars (cs : List Char) : List Char := cs.map ascii_lower

def lower_str (s : String) : String := String.mk (lower_chars s.data)

/-- Python `str.strip()` whitespace test (ASCII fragment). -/
def is_space (c : Char) : Bool := c = ' ' || c = '\t' || c = '\n' || c = '\r'

/-- Python `str.strip()` on character data. -/
def trim_chars (cs : List Char) : List Char :=
  ((cs.dropWhile is_space).reverse.dropWhile is_space).reverse

def py_strip (s : String) : String := String.mk (trim_chars s.data)

/-- Python `path.split(".")`: split on every dot, keeping empty parts. -/
def split_on_dot : List Char → List (List Char)
  | [] => [[]]
  | c :: rest =>
      match split_on_dot rest with
      | [] => [[]]
      | g :: gs => if c = '.' then [] :: g :: gs else (c :: g) :: gs

def is_digit (c : Char) : Bool := '0' ≤ c && c ≤ '9'

/-- Matches the regex `-?\d*` (possibly empty digit run after an
optional minus sign). -/
def opt_int_form : List Char → Bool
  | '-' :: ds => ds.all is_digit
  | ds => ds.all is_digit

/-- Matches `_INT_RE = ^-?\d+$`. -/
def int_form : List Char → Bool
  | '-' :: ds => !ds.isEmpty && ds.all is_digit
  | ds => !ds.isEmpty && ds.all is_digit

def digits_val : List Char → Nat → Nat
  | [], acc => acc
  | c :: cs, acc => digits_val cs (acc * 10 + (c.toNat - '0'.toNat))

/-- Python `int(s)` on a string matching `-?\d+`. -/
def int_of_chars : List Char → Int
  | '-' :: ds => -(digits_val ds 0 : Int)
  | ds => (digits_val ds 0 : Int)

/-- Python `int(s)` on a (possibly empty) `-?\d*` match, as used for a
slice bound: the empty string means "no bound", and the bare string
`"-"` makes `int` raise `ValueError` (which `_classify_bracket` does
not catch). -/
def slice_bound : List Char → Option (Option Int)
  | [] => some none
  | ['-'] => none
  | cs => some (some (int_of_chars cs))

/-- Positions of `:` characters. -/
def colon_split : List Char → List (List Char)
  | [] => [[]]
  | c :: rest =>
      match colon_split rest with
      | [] => [[]]
      | g :: gs => if c = ':' then [] :: g :: gs else (c :: g) :: gs

/-- `_classify_bracket`: classify the contents of one `[...]` group.
`none` is the propagated `ValueError` from `int("-")`. -/
def classify_bracket (content : List Char) : Option Seg :=
  let content := trim_chars content
  if content.isEmpty then some .iter
  else
    match colon_split content with
    | [l, r] =>
        if opt_int_form l && opt_int_form r then
          match slice_bound l, slice_bound r with
          | some a, some b => some (.slice a b)
          | _, _ => none
        else if int_form content then some (.idx (int_of_chars content))
        else some (.key (String.mk content))
    | _ =>
        if int_form content then some (.idx (int_of_chars content))
        else some (.key (String.mk content))

mutual

/-- Scan `[c₁][c₂]…`: the `(?:\[[^\]]*\])+` part of the bracket regex.
Returns the bracket contents, or `none` when the regex does not match
(unclosed bracket or trailing characters). -/
def bracket_groups : List Char → Option (List (List Char))
  | [] => some []
  | '[' :: rest => bracket_content rest
  | _ => none

/-- Inside a `[...]` group: collect characters up to the closing `]`. -/
def bracket_content : List Char → Option (List (List Char))
  | [] => none
  | c :: rest =>
      if c = ']' then (bracket_groups rest).map ([] :: ·)
      else
        (bracket_content rest).map fun gs =>
          match gs with
          | g :: gs' => (c :: g) :: gs'
          | [] => [[c]]

end

/-- One dot-separated part of a path, already stripped: either
`key?` + bracket groups (regex `^([^\[]*)((?:\[[^\]]*\])+)$`), a bare
integer, or a plain key. -/
def parse_part (part : List Char) : Option (List Seg) :=
  let part := trim_chars part
  if part.isEmpty then some []
  else
    match
      (if part.contains '[' then
        bracket_groups (part.dropWhile (· ≠ '[')) |>.map
          fun contents => (part.takeWhile (· ≠ '['), contents)
       else none) with
    | some (head, contents) =>
        let keyPart := trim_chars head
        let keySegs := if keyPart.isEmpty then [] else [Seg.key (String.mk keyPart)]
        (contents.mapM classify_bracket).map (keySegs ++ ·)
    | none =>
        if int_form part then some [.idx (int_of_chars part)]
        else some [.key (String.mk part)]

/-- `_parse_path_segments`: parse a filter path into typed segments.
Total except for the propagated `ValueError` on a slice bound `"-"`. -/
def parse_path_segments (path : String) : Option (List Seg) :=
  ((split_on_dot (trim_chars path.data)).mapM parse_part).map List.flatten

/-! ## Case-insensitive lookup and value extraction -/

/-- First field whose key lowercases to the given lowered key. -/
def lookup_lower {α : Type} : List (String × α) → String → Option (String × α)
  | [], _ => none
  | (k, v) :: rest, lowered =>
      if lower_str k = lowered then some (k, v) else lookup_lower rest lowered

/-- `_ci_get`: case-insensitive dict lookup returning
`(actual_key, value)`; exact match first, else first case-insensitive
match. -/
def ci_get {α : Type} (fields : List (String × α)) (key : String) : Option (String × α) :=
  match lookup_field fields key with
  | some v => some (key, v)
  | none => lookup_lower fields (lower_str key)

/-- Python list indexing `arr[i]` (negative indices count from the
end; out of range → `none`, the `IndexError` caught by callers). -/
def py_list_get {α : Type} (elems : List α) (i : Int) : Option α :=
  if 0 ≤ i then elems.get? i.toNat
  else
    let j := (elems.length : Int) + i
    if 0 ≤ j then elems.get? j.toNat else none

/-- `_get_value`: walk simple (`Key`/`Index`) segments to extract a
value.  Returns `(found, value)`; any miss or type mismatch is
`(false, null)`, exactly the Python `(False, None)`. -/
def get_value : Value → List Seg → Bool × Value
  | current, [] => (true, current)
  | current, seg :: rest =>
      match current with
      | .null => (false, .null)
      | _ =>
          match seg, current with
          | .key k, .obj fields =>
              match ci_get fields k with
              | some (_, v) => get_value v rest
              | none => (false, .null)
          | .idx i, .arr elems =>
              match py_list_get elems i with
              | some v => get_value v rest
              | none => (false, .null)
          | _, _ => (false, .null)

/-- Normalised slice bounds as in Python `slice(start, stop).indices(n)`
(step 1): the clamped start/stop of the selected range. -/
def slice_bounds (start stop : Option Int) (n : Nat) : Nat × Nat :=
  let norm : Option Int → Int → Int := fun b dflt =>
    match b with
    | none => dflt
    | some s => if s < 0 then max ((n : Int) + s) 0 else min s n
  ((norm start 0).toNat, (norm stop n).toNat)

/-- `_resolve_list_segment`: the `(index, element)` pairs a collection
segment selects from a list. -/
def resolve_list_segment {α : Type} (elems : List α) : Seg → List (Nat × α)
  | .iter => elems.enum
  | .idx i =>
      match py_list_get elems i with
      | some v => [(if 0 ≤ i then i.toNat else ((elems.length : Int) + i).toNat, v)]
      | none => []
  | .slice start stop =>
      let (a, b) := slice_bounds start stop elems.length
      (List.range' a (b - a)).zip ((elems.drop a).take (b - a))
  | .key _ => []

/-! ## Building the result tree -/

/-- Python `d[k] = x`: update the first exact occurrence in place, else
append a new key at the end (insertion order preserved). -/
def obj_set {α : Type} : List (String × α) → String → α → List (String × α)
  | [], k, x => [(k, x)]
  | (k', v) :: rest, k, x =>
      if k' = k then (k, x) :: rest else (k', v) :: obj_set rest k x

/-- `True` when `_ensure_container` would create a list for this next
segment (`next_wants_list = not isinstance(next_seg, str)`). -/
def seg_wants_list : Seg → Bool
  | .key _ => false
  | _ => true

def head_seg : List Seg → Seg
  | [] => .key ""
  | s :: _ => s

/-- `_set_in_result` fused with its `_ensure_container` walk: write
`x` at the segment path inside the result tree, creating intermediate
containers exactly as the Python does (key children typed by the next
segment; list padding always with `{}` mid-path and `None` at the final
index; on a type mismatch the walk silently keeps the current target).
In-place mutation is translated to rebuilding the spine.  `none` is the
uncaught `IndexError` from assigning through an out-of-range negative
index. -/
def set_in_result : Value → List Seg → Value → Option Value
  | t, [], _ => some t
  | t, [last], x =>
      match last, t with
      | .key k, .obj fields => some (.obj (obj_set fields k x))
      | .idx i, .arr elems =>
          if 0 ≤ i then
            let padded := elems ++ List.replicate (i.toNat + 1 - elems.length) Value.null
            some (.arr (padded.set i.toNat x))
          else
            let j := (elems.length : Int) + i
            if 0 ≤ j then some (.arr (elems.set j.toNat x)) else none
      | _, _ => some t
  | t, seg :: rest, x =>
      match seg, t with
      | .key k, .obj fields =>
          match ci_get fields k with
          | some (actual, child) =>
              (set_in_result child rest x).map fun c => .obj (obj_set fields actual c)
          | none =>
              let child := if seg_wants_list (head_seg rest) then Value.arr [] else Value.obj []
              (set_in_result child rest x).map fun c => .obj (fields ++ [(k, c)])
      | .idx i, .arr elems =>
          if 0 ≤ i then
            let padded := elems ++ List.replicate (i.toNat + 1 - elems.length) (Value.obj [])
            (set_in_result (padded.getD i.toNat Value.null) rest x).map
              fun c => .arr (padded.set i.toNat c)
          else
            let j := (elems.length : Int) + i
            if 0 ≤ j then
              (set_in_result (elems.getD j.toNat Value.null) rest x).map
                fun c => .arr (elems.set j.toNat c)
            else none
      | _, _ => set_in_result t rest x

/-- The container navigation loop of `_apply_spec`: walk/create the
prefix path inside the result (missing keys become `{}`, or `[]` at the
last prefix segment; integer steps pad with `{}`; mismatches skip), then
apply `f` to the container found there, rebuilding the spine. -/
def nav_upd : Value → List Seg → (Value → Option Value) → Option Value
  | t, [], f => f t
  | t, seg :: rest, f =>
      match seg, t with
      | .key k, .obj fields =>
          match ci_get fields k with
          | some (actual, child) =>
              (nav_upd child rest f).map fun c => .obj (obj_set fields actual c)
          | none =>
              let child := if rest.isEmpty then Value.arr [] else Value.obj []
              (nav_upd child rest f).map fun c => .obj (fields ++ [(k, c)])
      | .idx i, .arr elems =>
          if 0 ≤ i then
            let padded := elems ++ List.replicate (i.toNat + 1 - elems.length) (Value.obj [])
            (nav_upd (padded.getD i.toNat Value.null) rest f).map
              fun c => .arr (padded.set i.toNat c)
          else
            let j := (elems.length : Int) + i
            if 0 ≤ j then
              (nav_upd (elems.getD j.toNat Value.null) rest f).map
                fun c => .arr (elems.set j.toNat c)
            else none
      | _, _ => nav_upd t rest f

/-- First collection segment for projection: `Iterate`, `Slice`, or a
negative `Index`. -/
def is_coll_seg : Seg → Bool
  | .iter => true
  | .slice _ _ => true
  | .idx i => i < 0
  | .key _ => false

/-- A "simple" segment in the sense of `_get_value`'s docstring: a key,
or a non-negative index (so never a collection point). -/
def simple_seg : Seg → Bool
  | .key _ => true
  | .idx i => 0 ≤ i
  | .iter => false
  | .slice _ _ => false

def simple_segs (l : List Seg) : Bool := l.all simple_seg

/-- A segment whose projection write is idempotent: a Key, a non-negative
Index, or Iterate.  Only Slice and negative-Index segments are excluded
(their collection branch appends, so re-applying a spec grows the
result). -/
def iter_safe_seg : Seg → Bool
  | .key _ => true
  | .idx i => 0 ≤ i
  | .iter => true
  | .slice _ _ => false

def iter_safe_segs (l : List Seg) : Bool := l.all iter_safe_seg

/-- Outermost runtime type of a value (Python `type(x)`), used to state
shape preservation of result-tree writes. -/
def vkind : Value → Nat
  | .null => 0
  | .bool _ => 1
  | .num _ => 2
  | .str _ => 3
  | .arr _ => 4
  | .obj _ => 5

/-- An Index segment never directly following another Index segment
(the projection's list padding creates `{}` slots, so a second
consecutive index write is silently dropped — see the C3 analysis). -/
def no_idx_idx : List Seg → Bool
  | .idx _ :: .idx _ :: _ => false
  | _ :: rest => no_idx_idx rest
  | [] => true

/-- The fresh container `_set_in_result`'s walk would build for a path
starting with this segment: `{}` before a Key, `[]` before anything
else. -/
def fresh_for : Seg → Value
  | .key _ => .obj []
  | _ => .arr []

/-- The per-pair loop of `_apply_spec`'s iterate branch: suffix values
are written into `container[index]` (replacing a non-dict slot by `{}`
first); with no suffix the element is copied verbatim. -/
def iter_write (container : List Value) (suffix : List Seg) :
    List (Nat × Value) → Option (List Value)
  | [] => some container
  | (j, item) :: ps =>
      if suffix.isEmpty then iter_write (container.set j item) suffix ps
      else
        let (found, value) := get_value item suffix
        if found then
          let cj := container.getD j Value.null
          let cj := match cj with | .obj _ => cj | _ => Value.obj []
          match set_in_result cj suffix value with
          | some cj2 => iter_write (container.set j cj2) suffix ps
          | none => none
        else iter_write container suffix ps

/-- The per-pair loop of `_apply_spec`'s index/slice branch: a compact
list built by appending one entry per selected pair. -/
def slice_write (container : List Value) (suffix : List Seg) :
    List (Nat × Value) → Option (List Value)
  | [] => some container
  | (_, item) :: ps =>
      if suffix.isEmpty then slice_write (container ++ [item]) suffix ps
      else
        let (found, value) := get_value item suffix
        if found then
          match set_in_result (Value.obj []) suffix value with
          | some entry => slice_write (container ++ [entry]) suffix ps
          | none => none
        else slice_write container suffix ps

/-- `_apply_spec`: apply one field-path spec to `data`, merging into
`result`.  `none` is an uncaught `ValueError`/`IndexError`. -/
def apply_spec (data : Value) (spec : String) (result : Value) : Option Value :=
  match parse_path_segments spec with
  | none => none
  | some segments =>
      if segments.isEmpty then some result
      else
        match segments.findIdx? is_coll_seg with
        | none =>
            let (found, value) := get_value data segments
            if found then set_in_result result segments value else some result
        | some i =>
            let pre := segments.take i
            let collSeg := segments.getD i (.key "")
            let suffix := segments.drop (i + 1)
            let (found, arrv) := get_value data pre
            if !found then some result
            else
              match arrv with
              | .arr elems =>
                  let pairs := resolve_list_segment elems collSeg
                  if pairs.isEmpty then some result
                  else
                    nav_upd result pre fun container =>
                      match container with
                      | .arr celems =>
                          match collSeg with
                          | .iter =>
                              let padded :=
                                celems ++ List.replicate (elems.length - celems.length) (Value.obj [])
                              (iter_write padded suffix pairs).map Value.arr
                          | _ => (slice_write celems suffix pairs).map Value.arr
                      | _ => some container
              | _ => some result

def apply_all (data : Value) : List String → Value → Option Value
  | [], r => some r
  | s :: ss, r =>
      match apply_spec data s r with
      | some r2 => apply_all data ss r2
      | none => none

/-- `filter_response`: project `data` onto the given field specs. -/
def filter_response (data : Value) (field_specs : List String) : Option Value :=
  if field_specs.isEmpty then some data
  else
    let cleaned := (field_specs.map py_strip).filter (· ≠ "")
    if cleaned.isEmpty || cleaned.contains "*" then some data
    else
      match data with
      | .obj _ => apply_all data cleaned (Value.obj [])
      | _ => some data

/-! ## `extract_value` (used by exports and assertions) -/

def starts_with (s pre : String) : Bool := pre.data.isPrefixOf s.data

/-- Collection point as `extract_value` finds it: only `Iterate` and
`Slice` (unlike `_apply_spec`, negative indices are not collection
points here). -/
def is_extract_coll : Seg → Bool
  | .iter => true
  | .slice _ _ => true
  | _ => false

/-- `extract_value`: extract a single value (or list of values for a
collection path) from `data`.  Python `None` (absent) is `Value.null`;
`none` is an uncaught `ValueError` from parsing a malformed slice
bound. -/
def extract_value (data : Value) (path : String) : Option Value :=
  let path := py_strip path
  let path := if starts_with (lower_str path) "body." then String.mk (path.data.drop 5) else path
  match parse_path_segments path with
  | none => none
  | some segments =>
      match segments.findIdx? is_extract_coll with
      | some i =>
          let pre := segments.take i
          let collSeg := segments.getD i (.key "")
          let suffix := segments.drop (i + 1)
          let (found, arrv) := get_value data pre
          if !found then some .null
          else
            match arrv with
            | .arr elems =>
                some (.arr ((resolve_list_segment elems collSeg).filterMap fun p =>
                  if suffix.isEmpty then some p.2
                  else
                    let (ok, val) := get_value p.2 suffix
                    if ok then some val else none))
            | _ => some .null
      | none =>
          let (found, value) := get_value data segments
          some (if found then value else .null)

/-! ## Assertions (`parse_assert`, `evaluate_assert`) -/

/-- Python `str.find`: index of the first occurrence of `needle`, or
`none` (Python `-1`). -/
def find_sub (haystack needle : List Char) : Option Nat :=
  go haystack 0
where
  go : List Char → Nat → Option Nat
    | hs, i =>
        if needle.isPrefixOf hs then some i
        else
          match hs with
          | [] => none
          | _ :: rest => go rest (i + 1)

/-- `parse_assert`: split an assertion expression at the first `!=`,
else at the first `=`; `none` is the raised `ValueError` when neither
occurs. -/
def parse_assert (expr : String) : Option (String × String × String) :=
  let cs := expr.data
  match find_sub cs "!=".data with
  | some idx =>
      some (String.mk (trim_chars (cs.take idx)), "!=", String.mk (trim_chars (cs.drop (idx + 2))))
  | none =>
      match find_sub cs "=".data with
      | some idx =>
          some (String.mk (trim_chars (cs.take idx)), "=", String.mk (trim_chars (cs.drop (idx + 1))))
      | none => none

def join_with (sep : String) : List String → String
  | [] => ""
  | [x] => x
  | x :: xs => x ++ sep ++ join_with sep xs

mutual

/-- Model of Python `repr` on a decoded JSON value (string escape
sequences are not modelled; no claim exercises them). -/
def py_repr : Value → String
  | .null => "None"
  | .bool b => if b then "True" else "False"
  | .num n => toString n
  | .str s => "'" ++ s ++ "'"
  | .arr l => "[" ++ join_with ", " (py_repr_list l) ++ "]"
  | .obj f => "\x7b" ++ join_with ", " (py_repr_fields f) ++ "\x7d"

def py_repr_list : List Value → List String
  | [] => []
  | x :: xs => py_repr x :: py_repr_list xs

def py_repr_fields : List (String × Value) → List String
  | [] => []
  | (k, v) :: rest => ("'" ++ k ++ "': " ++ py_repr v) :: py_repr_fields rest

end

/-- Model of Python `str` on a decoded JSON value. -/
def py_str : Value → String
  | .str s => s
  | v => py_repr v

/-- The slice of `RequestResult` (from `executor.py`) consumed by the
assertion evaluator and the snapshot differ. -/
structure RequestResult where
  status_code : Int
  headers : List (String × String)
  body : Value

/-- The actual-value resolution block of `evaluate_assert`. -/
def assert_actual (result : RequestResult) (path : String) : Option Value :=
  if path = "status" then some (.num result.status_code)
  else if starts_with path "body." then extract_value result.body path
  else if path = "body" then some result.body
  else extract_value result.body path

/-- `evaluate_assert`: evaluate an assertion expression against a
request result, returning `(passed, message)`.  `none` is an uncaught
`ValueError` (malformed expression, or malformed slice bound inside
the path). -/
def evaluate_assert (expr : String) (result : RequestResult) : Option (Bool × String) :=
  match parse_assert expr with
  | none => none
  | some (path, op, expected) =>
      match assert_actual result path with
      | none => none
      | some actual =>
          let actualStr := match actual with | .null => "" | v => py_str v
          let passed := if op = "=" then actualStr == expected else actualStr != expected
          if passed then some (true, "ASSERT PASSED: " ++ expr)
          else some (false, "ASSERT FAILED: " ++ expr ++ " (actual: " ++ actualStr ++ ")")

/-! ## Snapshot diffing (`diff_snapshot`, `_diff_dicts` from `core.py`) -/

mutual

/-- Model of Python `json.dumps` on a decoded JSON value (string
escape sequences not modelled; no claim exercises them). -/
def json_dumps : Value → String
  | .null => "null"
  | .bool b => if b then "true" else "false"
  | .num n => toString n
  | .str s => "\"" ++ s ++ "\""
  | .arr l => "[" ++ join_with ", " (json_dumps_list l) ++ "]"
  | .obj f => "\x7b" ++ join_with ", " (json_dumps_fields f) ++ "\x7d"

def json_dumps_list : List Value → List String
  | [] => []
  | x :: xs => json_dumps x :: json_dumps_list xs

def json_dumps_fields : List (String × Value) → List String
  | [] => []
  | (k, v) :: rest => ("\"" ++ k ++ "\": " ++ json_dumps v) :: json_dumps_fields rest

end

/-- `_summarize`: short string form of a value, truncated at 80
characters. -/
def summarize (value : Value) : String :=
  let s := match value with
    | .obj _ => json_dumps value
    | .arr _ => json_dumps value
    | v => py_str v
  if s.length > 80 then String.mk (s.data.take 77) ++ "..." else s

/-- Lexicographic comparison of strings by character code points
(Python `<` on `str`, ASCII fragment). -/
def lt_str (a b : String) : Bool :=
  go a.data b.data
where
  go : List Char → List Char → Bool
    | [], [] => false
    | [], _ :: _ => true
    | _ :: _, [] => false
    | c :: cs, d :: ds => if c = d then go cs ds else decide (c < d)

def insert_sorted (x : String) : List String → List String
  | [] => [x]
  | y :: ys => if lt_str x y then x :: y :: ys else y :: insert_sorted x ys

/-- Python `sorted` on strings. -/
def sort_strs : List String → List String
  | [] => []
  | x :: xs => insert_sorted x (sort_strs xs)

/-- Python `set(...)`: deduplicate (order irrelevant here since the
result is sorted immediately). -/
def dedup_strs : List String → List String
  | [] => []
  | x :: xs => if xs.contains x then dedup_strs xs else x :: dedup_strs xs

/-- `sorted(set(list(old.keys()) + list(new.keys())))`. -/
def all_keys (old new : List (String × Value)) : List String :=
  sort_strs (dedup_strs (old.map Prod.fst ++ new.map Prod.fst))

theorem lookup_field_sizeOf {α : Type} [SizeOf α] {fs : List (String × α)} {k : String} {v : α}
    (h : lookup_field fs k = some v) : sizeOf v < sizeOf fs := by
  induction fs with
  | nil => simp [lookup_field] at h
  | cons p rest ih =>
      obtain ⟨pk, pv⟩ := p
      by_cases hk : pk = k
      · simp [lookup_field, hk] at h
        subst h
        simp
        omega
      · simp [lookup_field, hk] at h
        have := ih h
        simp
        omega

mutual

/-- `_diff_dicts`: recursively diff two dicts, producing human-readable
lines (appending to the shared list is translated to returning the
lines). -/
def diff_dicts (pfx : String) (old new : List (String × Value)) : List String :=
  diff_keys pfx old new (all_keys old new)
termination_by (sizeOf old + sizeOf new, (all_keys old new).length + 1)

/-- The per-key loop of `_diff_dicts` over the sorted key union. -/
def diff_keys (pfx : String) (old new : List (String × Value)) : List String → List String
  | [] => []
  | k :: ks =>
      (let path := pfx ++ "." ++ k
       match h1 : lookup_field old k, h2 : lookup_field new k with
       | none, some nv => [path ++ ": (absent) → " ++ summarize nv]
       | some ov, none => [path ++ ": " ++ summarize ov ++ " → (absent)"]
       | some (.obj of), some (.obj nf) =>
           have h1' : sizeOf of < sizeOf old := by
             have := lookup_field_sizeOf h1; simp at this; omega
           have h2' : sizeOf nf < sizeOf new := by
             have := lookup_field_sizeOf h2; simp at this; omega
           diff_dicts path of nf
       | some ov, some nv =>
           if py_eq ov nv then [] else [path ++ ": " ++ summarize ov ++ " → " ++ summarize nv]
       | none, none => []) ++ diff_keys pfx old new ks
termination_by ks => (sizeOf old + sizeOf new, ks.length)

end

/-- The Snapshot record written by `save_snapshot` (`saved_at` is not
consumed by the differ and is omitted). -/
structure Snapshot where
  status_code : Int
  headers : List (String × String)
  body : Value

/-- `diff_snapshot`: compare a saved snapshot against a current
response; the empty list means identical. -/
def diff_snapshot (snapshot : Snapshot) (result : RequestResult) : List String :=
  let statusDiffs :=
    if snapshot.status_code ≠ result.status_code then
      ["status_code: " ++ toString snapshot.status_code ++ " → " ++ toString result.status_code]
    else []
  match snapshot.body, result.body with
  | .obj of, .obj nf => statusDiffs ++ diff_dicts "body" of nf
  | sb, cb => if py_eq sb cb then statusDiffs else statusDiffs ++ ["body: " ++ summarize sb ++ " → " ++ summarize cb]

/-!
## Heap model of the projection builder

The pure functions above reproduce the *output value* of
`filter_response`, but Python mutates `dict`/`list` objects in place
and stores references, so effects on the *input* (aliasing) are
invisible to a purely functional translation.  This section translates
the same functions once more, store-passing style: every Python
`dict`/`list` object is a heap node at an address, scalars are
immediate, and assignment mutates the store.  `load_value` decodes a
pure value into a fresh heap (as Python's `json` decoder does —
producing a tree with no sharing), and `readback` decodes a heap value
back (with fuel, since mutation can in principle create sharing).
-/

/-- A Python runtime value: scalars are immediate, containers are
references into the store. -/
inductive HVal where
  | hnull
  | hbool (b : Bool)
  | hnum (n : Int)
  | hstr (s : String)
  | href (a : Nat)
deriving Repr, DecidableEq

/-- A heap node: one `dict` or `list` object. -/
inductive HNode where
  | hobj (fields : List (String × HVal))
  | harr (elems : List HVal)
deriving Repr, DecidableEq

/-- The heap: node at address `a` is the `a`-th entry. -/
abbrev Store := List HNode

def fetch (s : Store) (a : Nat) : Option HNode := s.get? a

def store_set (s : Store) (a : Nat) (n : HNode) : Store := s.set a n

def alloc (s : Store) (n : HNode) : Store × Nat := (s ++ [n], s.length)

mutual

/-- Decode a pure JSON value into the heap (fresh nodes, no sharing —
exactly what Python's `json.loads` produces). -/
def load_value : Store → Value → Store × HVal
  | s, .null => (s, .hnull)
  | s, .bool b => (s, .hbool b)
  | s, .num n => (s, .hnum n)
  | s, .str t => (s, .hstr t)
  | s, .arr l =>
      let (s1, hs) := load_list s l
      let (s2, a) := alloc s1 (.harr hs)
      (s2, .href a)
  | s, .obj f =>
      let (s1, hf) := load_fields s f
      let (s2, a) := alloc s1 (.hobj hf)
      (s2, .href a)

def load_list : Store → List Value → Store × List HVal
  | s, [] => (s, [])
  | s, v :: vs =>
      let (s1, h) := load_value s v
      let (s2, hs) := load_list s1 vs
      (s2, h :: hs)

def load_fields : Store → List (String × Value) → Store × List (String × HVal)
  | s, [] => (s, [])
  | s, (k, v) :: rest =>
      let (s1, h) := load_value s v
      let (s2, hs) := load_fields s1 rest
      (s2, (k, h) :: hs)

end

mutual

/-- Read a heap value back into a pure JSON value (fuel-bounded). -/
def readback : Nat → Store → HVal → Option Value
  | 0, _, _ => none
  | _ + 1, _, .hnull => some .null
  | _ + 1, _, .hbool b => some (.bool b)
  | _ + 1, _, .hnum n => some (.num n)
  | _ + 1, _, .hstr t => some (.str t)
  | fuel + 1, s, .href a =>
      match fetch s a with
      | some (.harr hs) => (readback_list fuel s hs).map .arr
      | some (.hobj hf) => (readback_fields fuel s hf).map .obj
      | none => none

def readback_list : Nat → Store → List HVal → Option (List Value)
  | 0, _, _ => none
  | _ + 1, _, [] => some []
  | fuel + 1, s, h :: hs =>
      match readback fuel s h, readback_list fuel s hs with
      | some v, some vs => some (v :: vs)
      | _, _ => none

def readback_fields : Nat → Store → List (String × HVal) → Option (List (String × Value))
  | 0, _, _ => none
  | _ + 1, _, [] => some []
  | fuel + 1, s, (k, h) :: hs =>
      match readback fuel s h, readback_fields fuel s hs with
      | some v, some vs => some ((k, v) :: vs)
      | _, _ => none

end

/-- `_get_value` on the heap (read-only). -/
def get_value_h (s : Store) : HVal → List Seg → Bool × HVal
  | current, [] => (true, current)
  | current, seg :: rest =>
      match current with
      | .hnull => (false, .hnull)
      | _ =>
          match seg, current with
          | .key k, .href a =>
              match fetch s a with
              | some (.hobj fields) =>
                  match ci_get fields k with
                  | some (_, v) => get_value_h s v rest
                  | none => (false, .hnull)
              | _ => (false, .hnull)
          | .idx i, .href a =>
              match fetch s a with
              | some (.harr elems) =>
                  match py_list_get elems i with
                  | some v => get_value_h s v rest
                  | none => (false, .hnull)
              | _ => (false, .hnull)
          | _, _ => (false, .hnull)

/-- Allocate `n` fresh empty dicts (`target.append({})` run `n`
times). -/
def alloc_pads : Store → Nat → Store × List HVal
  | s, 0 => (s, [])
  | s, n + 1 =>
      let (s1, a) := alloc s (.hobj [])
      let (s2, rest) := alloc_pads s1 n
      (s2, .href a :: rest)

/-- `_set_in_result` (with its `_ensure_container` walk) on the heap:
writes mutate the store; the target may be — and after a verbatim copy
is — a node also reachable from the input. -/
def set_in_result_h (s : Store) : HVal → List Seg → HVal → Option Store
  | _, [], _ => some s
  | t, [last], x =>
      match last, t with
      | .key k, .href a =>
          match fetch s a with
          | some (.hobj fields) => some (store_set s a (.hobj (obj_set fields k x)))
          | _ => some s
      | .idx i, .href a =>
          match fetch s a with
          | some (.harr elems) =>
              if 0 ≤ i then
                let padded := elems ++ List.replicate (i.toNat + 1 - elems.length) HVal.hnull
                some (store_set s a (.harr (padded.set i.toNat x)))
              else
                let j := (elems.length : Int) + i
                if 0 ≤ j then some (store_set s a (.harr (elems.set j.toNat x))) else none
          | _ => some s
      | _, _ => some s
  | t, seg :: rest, x =>
      match seg, t with
      | .key k, .href a =>
          match fetch s a with
          | some (.hobj fields) =>
              match ci_get fields k with
              | some (_, child) => set_in_result_h s child rest x
              | none =>
                  let node := if seg_wants_list (head_seg rest) then HNode.harr [] else HNode.hobj []
                  let (s1, na) := alloc s node
                  let s2 := store_set s1 a (.hobj (fields ++ [(k, .href na)]))
                  set_in_result_h s2 (.href na) rest x
          | _ => set_in_result_h s t rest x
      | .idx i, .href a =>
          match fetch s a with
          | some (.harr elems) =>
              if 0 ≤ i then
                let (s1, pads) := alloc_pads s (i.toNat + 1 - elems.length)
                let elems2 := elems ++ pads
                let s2 := store_set s1 a (.harr elems2)
                set_in_result_h s2 (elems2.getD i.toNat .hnull) rest x
              else
                let j := (elems.length : Int) + i
                if 0 ≤ j then set_in_result_h s (elems.getD j.toNat .hnull) rest x else none
          | _ => set_in_result_h s t rest x
      | _, _ => set_in_result_h s t rest x

/-- The container-navigation loop of `_apply_spec` on the heap.
(A negative index cannot occur in a prefix — the collection-point scan
stops there first — so that branch simply reads like Python's in-range
negative indexing.) -/
def nav_container_h (s : Store) : HVal → List Seg → Store × HVal
  | t, [] => (s, t)
  | t, seg :: rest =>
      match seg, t with
      | .key k, .href a =>
          match fetch s a with
          | some (.hobj fields) =>
              match ci_get fields k with
              | some (_, child) => nav_container_h s child rest
              | none =>
                  let node := if rest.isEmpty then HNode.harr [] else HNode.hobj []
                  let (s1, na) := alloc s node
                  let s2 := store_set s1 a (.hobj (fields ++ [(k, .href na)]))
                  nav_container_h s2 (.href na) rest
          | _ => nav_container_h s t rest
      | .idx i, .href a =>
          match fetch s a with
          | some (.harr elems) =>
              if 0 ≤ i then
                let (s1, pads) := alloc_pads s (i.toNat + 1 - elems.length)
                let elems2 := elems ++ pads
                let s2 := store_set s1 a (.harr elems2)
                nav_container_h s2 (elems2.getD i.toNat .hnull) rest
              else
                match py_list_get elems i with
                | some child => nav_container_h s child rest
                | none => (s, t)
          | _ => nav_container_h s t rest
      | _, _ => nav_container_h s t rest

/-- The iterate-branch loop of `_apply_spec` on the heap (`ca` is the
address of the output container list, re-read on every iteration as
Python does). -/
def iter_write_h (suffix : List Seg) : Store → Nat → List (Nat × HVal) → Option Store
  | s, _, [] => some s
  | s, ca, (j, item) :: ps =>
      if suffix.isEmpty then
        match fetch s ca with
        | some (.harr celems) => iter_write_h suffix (store_set s ca (.harr (celems.set j item))) ca ps
        | _ => none
      else
        let (found, value) := get_value_h s item suffix
        if found then
          match fetch s ca with
          | some (.harr celems) =>
              let cj := celems.getD j .hnull
              let isDict :=
                match cj with
                | .href a' => match fetch s a' with | some (.hobj _) => true | _ => false
                | _ => false
              if isDict then
                match set_in_result_h s cj suffix value with
                | some s1 => iter_write_h suffix s1 ca ps
                | none => none
              else
                let (s1, na) := alloc s (.hobj [])
                let s2 := store_set s1 ca (.harr (celems.set j (.href na)))
                match set_in_result_h s2 (.href na) suffix value with
                | some s3 => iter_write_h suffix s3 ca ps
                | none => none
          | _ => none
        else iter_write_h suffix s ca ps

/-- The slice-branch loop of `_apply_spec` on the heap. -/
def slice_write_h (suffix : List Seg) : Store → Nat → List (Nat × HVal) → Option Store
  | s, _, [] => some s
  | s, ca, (_, item) :: ps =>
      if suffix.isEmpty then
        match fetch s ca with
        | some (.harr celems) => slice_write_h suffix (store_set s ca (.harr (celems ++ [item]))) ca ps
        | _ => none
      else
        let (found, value) := get_value_h s item suffix
        if found then
          let (s1, ea) := alloc s (.hobj [])
          match set_in_result_h s1 (.href ea) suffix value with
          | some s2 =>
              match fetch s2 ca with
              | some (.harr celems) =>
                  slice_write_h suffix (store_set s2 ca (.harr (celems ++ [.href ea]))) ca ps
              | _ => none
          | none => none
        else slice_write_h suffix s ca ps

/-- `_apply_spec` on the heap. -/
def apply_spec_h (s : Store) (data : HVal) (spec : String) (resultRef : Nat) : Option Store :=
  match parse_path_segments spec with
  | none => none
  | some segments =>
      if segments.isEmpty then some s
      else
        match segments.findIdx? is_coll_seg with
        | none =>
            let (found, value) := get_value_h s data segments
            if found then set_in_result_h s (.href resultRef) segments value else some s
        | some i =>
            let pre := segments.take i
            let collSeg := segments.getD i (.key "")
            let suffix := segments.drop (i + 1)
            let (found, arrv) := get_value_h s data pre
            if !found then some s
            else
              match arrv with
              | .href a =>
                  match fetch s a with
                  | some (.harr elems) =>
                      let pairs := resolve_list_segment elems collSeg
                      if pairs.isEmpty then some s
                      else
                        let (s1, cont) := nav_container_h s (.href resultRef) pre
                        match cont with
                        | .href ca =>
                            match fetch s1 ca with
                            | some (.harr celems) =>
                                match collSeg with
                                | .iter =>
                                    let arrLen :=
                                      match fetch s1 a with
                                      | some (.harr es) => es.length
                                      | _ => 0
                                    let (s2, pads) := alloc_pads s1 (arrLen - celems.length)
                                    let s3 := store_set s2 ca (.harr (celems ++ pads))
                                    iter_write_h suffix s3 ca pairs
                                | _ => slice_write_h suffix s1 ca pairs
                            | _ => some s1
                        | _ => some s1
                  | _ => some s
              | _ => some s

def apply_all_h (data : HVal) : Store → List String → Nat → Option Store
  | s, [], _ => some s
  | s, spec :: ss, resultRef =>
      match apply_spec_h s data spec resultRef with
      | some s1 => apply_all_h data s1 ss resultRef
      | none => none

/-- `filter_response` on the heap: returns the final store and the
result value. -/
def filter_response_h (s : Store) (data : HVal) (field_specs : List String) :
    Option (Store × HVal) :=
  if field_specs.isEmpty then some (s, data)
  else
    let cleaned := (field_specs.map py_strip).filter (· ≠ "")
    if cleaned.isEmpty || cleaned.contains "*" then some (s, data)
    else
      match data with
      | .href a =>
          match fetch s a with
          | some (.hobj _) =>
              let (s1, ra) := alloc s (.hobj [])
              (apply_all_h data s1 cleaned ra).map (fun s2 => (s2, .href ra))
          | _ => some (s, data)
      | _ => some (s, data)

/-! ## Claim theorems -/

def c1_input : Value := .obj [("a", .obj [("c", .num 1)])]

def c1_mutated : Value := .obj [("a", .obj [("c", .num 1), ("C", .num 1)])]

/-- Claim C1: `filter_response` never mutates its input.  The code
violates this: on the heap model, running
`filter_response({"a": {"c": 1}}, ["a", "a.C"])` installs the source
sub-object `{"c": 1}` into the result by reference (spec `"a"`), and
the write for spec `"a.C"` then walks into that shared node and adds
the key `"C"` — reading the *input* back from the final heap yields
`{"a": {"c": 1, "C": 1}}`, a different value than was loaded. -/
theorem claim_C1_theorem :
    (match filter_response_h (load_value [] c1_input).1 (load_value [] c1_input).2
        ["a", "a.C"] with
     | some (s1, _) => readback 100 s1 (load_value [] c1_input).2
     | none => none) = some c1_mutated ∧
    py_eq c1_mutated c1_input = false :=
  ⟨rfl, rfl⟩

/-- Claim C2, counterexample: the projection names created output keys
with the *spec's* casing, not the source's:
`filter_response({"Token": "abc"}, ["token"])` is `{"token": "abc"}`,
which differs (under Python `==`) from the `{"Token": "abc"}` the
claim demands. -/
theorem claim_C2_counterexample :
    filter_response (.obj [("Token", .str "abc")]) ["token"] =
      some (.obj [("token", .str "abc")]) ∧
    py_eq (Value.obj [("token", .str "abc")]) (.obj [("Token", .str "abc")]) = false :=
  ⟨rfl, rfl⟩

/-- Claim C2 as amended: for a single-key spec matched
case-insensitively against the source object, the created output key
carries the spec's literal casing (the matched value is the source's). -/
theorem claim_C2_theorem
    (fields : List (String × Value)) (spec k a : String) (v : Value)
    (hstrip : py_strip spec = spec) (hstar : spec ≠ "*")
    (hparse : parse_path_segments spec = some [Seg.key k])
    (hci : ci_get fields k = some (a, v)) :
    filter_response (.obj fields) [spec] = some (.obj [(k, v)]) := by
  have hne : spec ≠ "" := by
    intro h
    subst h
    rw [show parse_path_segments "" = some [] from rfl] at hparse
    simp at hparse
  unfold filter_response
  simp only [List.isEmpty_cons, List.map_cons, List.map_nil, hstrip, List.filter,
    if_neg, Bool.false_eq_true]
  rw [if_neg (by simp)]
  have hfilter : (decide (spec ≠ "")) = true := by simp [hne]
  simp only [hfilter]
  rw [if_neg (by simp [hne, eq_comm, hstar])]
  show apply_all (.obj fields) [spec] (.obj []) = _
  unfold apply_all apply_spec
  rw [hparse]
  simp only [List.isEmpty_cons, List.findIdx?_cons, is_coll_seg, List.findIdx?_nil,
    Option.map_none', Bool.false_eq_true, if_false, get_value, hci, set_in_result, obj_set]
  rfl

/-- Claim C2 witness: the amended theorem applied at
`{"Token": "abc"}` with spec `"token"`. -/
theorem claim_C2_witness :
    py_strip "token" = "token" ∧ "token" ≠ "*" ∧
    parse_path_segments "token" = some [Seg.key "token"] ∧
    ci_get [("Token", Value.str "abc")] "token" = some ("Token", .str "abc") ∧
    filter_response (.obj [("Token", .str "abc")]) ["token"] =
      some (.obj [("token", .str "abc")]) :=
  ⟨rfl, by decide, rfl, rfl,
    claim_C2_theorem [("Token", Value.str "abc")] "token" "token" "Token" (.str "abc")
      rfl (by decide) rfl rfl⟩

/-- Claim C10: `diff_snapshot` never consults the snapshot's stored
headers or the live response's headers — its output depends only on
the status codes and bodies. -/
theorem claim_C10_theorem (sc : Int) (sb : Value) (h1 h2 : List (String × String))
    (rc : Int) (rb : Value) (g1 g2 : List (String × String)) :
    diff_snapshot ⟨sc, h1, sb⟩ ⟨rc, g1, rb⟩ = diff_snapshot ⟨sc, h2, sb⟩ ⟨rc, g2, rb⟩ := rfl

theorem find_sub_single_none {c : Char} :
    ∀ (hs : List Char) (i : Nat), find_sub.go [c] hs i = none ↔ c ∉ hs := by
  intro hs
  induction hs with
  | nil =>
      intro i
      simp [find_sub.go, List.isPrefixOf]
  | cons d rest ih =>
      intro i
      rw [find_sub.go]
      have hpre : [c].isPrefixOf (d :: rest) = (c == d) := by
        simp [List.isPrefixOf]
      rw [hpre]
      by_cases hcd : c = d
      · subst hcd
        simp
      · simp only [beq_iff_eq, hcd, if_false]
        rw [ih (i + 1)]
        simp [hcd]

theorem find_sub_two_mem {a b : Char} :
    ∀ (hs : List Char) (i j : Nat), find_sub.go [a, b] hs i = some j → b ∈ hs := by
  intro hs
  induction hs with
  | nil =>
      intro i j h
      simp [find_sub.go, List.isPrefixOf] at h
  | cons d rest ih =>
      intro i j h
      rw [find_sub.go] at h
      by_cases hpre : [a, b].isPrefixOf (d :: rest) = true
      · cases rest with
        | nil => simp [List.isPrefixOf] at hpre
        | cons e es =>
            have hb : b = e := by
              simp [List.isPrefixOf] at hpre
              exact hpre.2
            subst hb
            simp
      · rw [if_neg hpre] at h
        exact List.mem_cons_of_mem d (ih (i + 1) j h)

/-- Claim C7: `parse_assert` splits at the first `!=` when present,
else at the first `=` (so the expected literal may contain `=`), and
raises exactly when the expression contains neither — equivalently,
since any `!=` contains `=`, exactly when it contains no `=` at all. -/
theorem claim_C7_theorem :
    parse_assert "status!=500" = some ("status", "!=", "500") ∧
    parse_assert "body.url=http://x?a=1" = some ("body.url", "=", "http://x?a=1") ∧
    parse_assert "nodelimiter" = none ∧
    ∀ e : String, parse_assert e = none ↔ '=' ∉ e.data := by
  refine ⟨rfl, rfl, rfl, ?_⟩
  intro e
  unfold parse_assert
  show (match find_sub e.data ['!', '='] with
        | some idx => some (String.mk (trim_chars (e.data.take idx)), "!=",
            String.mk (trim_chars (e.data.drop (idx + 2))))
        | none =>
            match find_sub e.data ['='] with
            | some idx => some (String.mk (trim_chars (e.data.take idx)), "=",
                String.mk (trim_chars (e.data.drop (idx + 1))))
            | none => none) = none ↔ '=' ∉ e.data
  cases h1 : find_sub e.data ['!', '='] with
  | some i =>
      constructor
      · intro h; cases h
      · intro h; exact absurd (find_sub_two_mem e.data 0 i h1) h
  | none =>
      cases h2 : find_sub e.data ['='] with
      | some i =>
          constructor
          · intro h; cases h
          · intro h
            have hnone : find_sub.go ['='] e.data 0 = none :=
              (find_sub_single_none e.data 0).mpr h
            have h2' : find_sub.go ['='] e.data 0 = some i := h2
            rw [hnone] at h2'
            cases h2'
      | none =>
          constructor
          · intro _
            exact (find_sub_single_none e.data 0).mp h2
          · intro _; rfl

theorem evaluate_branch_eq (e expected A op : String) :
    (let passed := if op = "=" then A == expected else A != expected;
     if passed then some (true, "ASSERT PASSED: " ++ e)
     else some (false, "ASSERT FAILED: " ++ e ++ " (actual: " ++ A ++ ")")) =
    some ((if op = "=" then A == expected else A != expected),
      if (if op = "=" then A == expected else A != expected) then "ASSERT PASSED: " ++ e
      else "ASSERT FAILED: " ++ e ++ " (actual: " ++ A ++ ")") := by
  by_cases h : (if op = "=" then A == expected else A != expected) = true <;> simp [h]

/-- Claim C8: `evaluate_assert` never throws for a missing field — an
absent or null extracted value compares as the empty string, so an
equality assertion with empty expected passes; messages are
`"ASSERT PASSED: {expr}"` / `"ASSERT FAILED: {expr} (actual: {actual_str})"`. -/
theorem claim_C8_theorem :
    (∀ (e path expected : String) (r : RequestResult),
        parse_assert e = some (path, "=", expected) →
        assert_actual r path = some Value.null →
        evaluate_assert e r =
          some ((("" : String) == expected),
            if (("" : String) == expected) then "ASSERT PASSED: " ++ e
            else "ASSERT FAILED: " ++ e ++ " (actual: " ++ "" ++ ")")) ∧
    (∀ (e path op expected : String) (r : RequestResult) (v : Value),
        parse_assert e = some (path, op, expected) →
        assert_actual r path = some v →
        ∃ b : Bool, evaluate_assert e r =
          some (b, if b then "ASSERT PASSED: " ++ e
                   else "ASSERT FAILED: " ++ e ++ " (actual: " ++
                     (match v with | .null => "" | w => py_str w) ++ ")")) ∧
    evaluate_assert "body.missing=" ⟨200, [], .obj [("a", .num 1)]⟩ =
      some (true, "ASSERT PASSED: body.missing=") := by
  refine ⟨?_, ?_, rfl⟩
  · intro e path expected r hparse hactual
    simp only [evaluate_assert, hparse, hactual]
    by_cases hx : ("" : String) == expected
    · simp [hx]
    · simp only [Bool.not_eq_true] at hx
      simp [hx]
  · intro e path op expected r v hparse hactual
    cases v <;> (simp only [evaluate_assert, hparse, hactual]; exact ⟨_, evaluate_branch_eq _ _ _ _⟩)

/-- Claim C8 witness: the missing-field clause applied at
`evaluate_assert("body.missing=", body={"a": 1})`. -/
theorem claim_C8_witness :
    parse_assert "body.missing=" = some ("body.missing", "=", "") ∧
    assert_actual ⟨200, [], .obj [("a", .num 1)]⟩ "body.missing" = some Value.null ∧
    evaluate_assert "body.missing=" ⟨200, [], .obj [("a", .num 1)]⟩ =
      some (true, "ASSERT PASSED: body.missing=") :=
  ⟨rfl, rfl, by
    have h := claim_C8_theorem.1 "body.missing=" "body.missing" ""
      ⟨200, [], .obj [("a", .num 1)]⟩ rfl rfl
    simpa using h⟩

theorem getD_append_len (l0 : List Value) (x : Value) (rest : List Value) (d : Value) :
    (l0 ++ x :: rest).getD l0.length d = x := by
  induction l0 with
  | nil => rfl
  | cons a l0 ih => simp only [List.cons_append, List.length_cons, List.getD_cons_succ, ih]

theorem set_append_len (l0 : List Value) (rest : List Value) (x y : Value) :
    (l0 ++ x :: rest).set l0.length y = l0 ++ y :: rest := by
  induction l0 with
  | nil => rfl
  | cons a l0 ih => simp only [List.cons_append, List.length_cons, List.set_cons_succ, ih]

/-- For a single nonempty non-`*` spec, `filter_response` on an object
is one `_apply_spec` run into a fresh result dict. -/
theorem filter_response_single (fields : List (String × Value)) (spec : String)
    (hstrip : py_strip spec = spec) (hne : spec ≠ "") (hstar : spec ≠ "*") :
    filter_response (.obj fields) [spec] = apply_spec (.obj fields) spec (.obj []) := by
  unfold filter_response
  simp only [List.isEmpty_cons, List.map_cons, List.map_nil, hstrip, List.filter,
    if_neg, Bool.false_eq_true]
  rw [if_neg (by simp)]
  have hfilter : (decide (spec ≠ "")) = true := by simp [hne]
  simp only [hfilter]
  rw [if_neg (by simp [hne, eq_comm, hstar])]
  show apply_all (.obj fields) [spec] (.obj []) = _
  unfold apply_all
  cases h : apply_spec (.obj fields) spec (.obj []) with
  | some r => simp [apply_all]
  | none => rfl

/-- `iter_write` with a one-key suffix over freshly padded slots writes
`{k: x}` at each source index where extraction finds `x`, and leaves
the `{}` padding elsewhere. -/
theorem iter_write_key (k : String) (elems : List Value) :
    ∀ l0 : List Value,
      iter_write (l0 ++ List.replicate elems.length (Value.obj [])) [Seg.key k]
        (List.enumFrom l0.length elems) =
      some (l0 ++ elems.map fun e =>
        match get_value e [Seg.key k] with
        | (true, x) => Value.obj [(k, x)]
        | _ => Value.obj []) := by
  induction elems with
  | nil => intro l0; simp [iter_write]
  | cons e es ih =>
      intro l0
      rw [show List.enumFrom l0.length (e :: es) = (l0.length, e) :: List.enumFrom (l0.length + 1) es
        from rfl]
      rw [show List.replicate (e :: es).length (Value.obj []) =
        Value.obj [] :: List.replicate es.length (Value.obj []) from rfl]
      rw [iter_write]
      rcases hgv : get_value e [Seg.key k] with ⟨found, value⟩
      simp only [List.isEmpty_cons, Bool.false_eq_true, if_false, hgv]
      cases found with
      | true =>
          simp only [if_pos rfl, if_true, eq_self_iff_true, getD_append_len]
          rw [show set_in_result (Value.obj []) [Seg.key k] value =
            some (Value.obj [(k, value)]) from rfl]
          show iter_write ((l0 ++ Value.obj [] :: List.replicate es.length (Value.obj [])).set
              l0.length (Value.obj [(k, value)])) [Seg.key k]
              (List.enumFrom (l0.length + 1) es) = _
          rw [set_append_len]
          rw [show (l0 ++ Value.obj [(k, value)] :: List.replicate es.length (Value.obj [])) =
            ((l0 ++ [Value.obj [(k, value)]]) ++ List.replicate es.length (Value.obj []))
            from by simp]
          rw [show l0.length + 1 = (l0 ++ [Value.obj [(k, value)]]).length from by simp]
          rw [ih (l0 ++ [Value.obj [(k, value)]])]
          simp [hgv]
      | false =>
          simp only [Bool.false_eq_true, if_false]
          rw [show (l0 ++ Value.obj [] :: List.replicate es.length (Value.obj [])) =
            ((l0 ++ [Value.obj []]) ++ List.replicate es.length (Value.obj []))
            from by simp]
          rw [show l0.length + 1 = (l0 ++ [Value.obj []]).length from by simp]
          rw [ih (l0 ++ [Value.obj []])]
          simp [hgv]

/-- `iter_write` with no suffix copies every element verbatim to its
source index. -/
theorem iter_write_verbatim (elems : List Value) :
    ∀ l0 : List Value,
      iter_write (l0 ++ List.replicate elems.length (Value.obj [])) []
        (List.enumFrom l0.length elems) = some (l0 ++ elems) := by
  induction elems with
  | nil => intro l0; simp [iter_write]
  | cons e es ih =>
      intro l0
      rw [show List.enumFrom l0.length (e :: es) = (l0.length, e) :: List.enumFrom (l0.length + 1) es
        from rfl]
      rw [show List.replicate (e :: es).length (Value.obj []) =
        Value.obj [] :: List.replicate es.length (Value.obj []) from rfl]
      rw [iter_write]
      simp only [List.isEmpty_nil, if_pos rfl, set_append_len]
      rw [show (l0 ++ e :: List.replicate es.length (Value.obj [])) =
        ((l0 ++ [e]) ++ List.replicate es.length (Value.obj [])) from by simp]
      rw [show l0.length + 1 = (l0 ++ [e]).length from by simp]
      rw [ih (l0 ++ [e])]
      simp

/-- Claim C4: an Iterate spec pads the output array with empty Objects
up to the source array's length and writes each suffix-extracted value
at its original source index (copying the element verbatim when there
is no suffix); in particular
`filter_response({"data": [{"id":1,"name":"A"},{"id":2,"name":"B"}]},
["data[].id"]) = {"data": [{"id":1},{"id":2}]}`. -/
theorem claim_C4_theorem :
    (∀ (fields : List (String × Value)) (elems : List Value) (a k spec : String),
        py_strip spec = spec →
        parse_path_segments spec = some [Seg.key "data", Seg.iter, Seg.key k] →
        ci_get fields "data" = some (a, .arr elems) →
        elems ≠ [] →
        filter_response (.obj fields) [spec] =
          some (.obj [("data", .arr (elems.map fun e =>
            match get_value e [Seg.key k] with
            | (true, x) => Value.obj [(k, x)]
            | _ => Value.obj []))])) ∧
    (∀ (fields : List (String × Value)) (elems : List Value) (a spec : String),
        py_strip spec = spec →
        parse_path_segments spec = some [Seg.key "data", Seg.iter] →
        ci_get fields "data" = some (a, .arr elems) →
        elems ≠ [] →
        filter_response (.obj fields) [spec] = some (.obj [("data", .arr elems)])) ∧
    filter_response (.obj [("data", .arr [.obj [("id", .num 1), ("name", .str "A")],
        .obj [("id", .num 2), ("name", .str "B")]])]) ["data[].id"] =
      some (.obj [("data", .arr [.obj [("id", .num 1)], .obj [("id", .num 2)]])]) := by
  refine ⟨?_, ?_, rfl⟩
  · intro fields elems a k spec hstrip hparse hci hne0
    have hne : spec ≠ "" := by
      intro h; subst h
      rw [show parse_path_segments "" = some [] from rfl] at hparse
      simp at hparse
    have hstar : spec ≠ "*" := by
      intro h; subst h
      rw [show parse_path_segments "*" = some [Seg.key "*"] from rfl] at hparse
      simp at hparse
    have hpe : (List.enum elems).isEmpty = false := by
      cases elems with
      | nil => exact absurd rfl hne0
      | cons _ _ => rfl
    have hgv_data : get_value (Value.obj fields) [Seg.key "data"] = (true, Value.arr elems) := by
      simp [get_value, hci]
    rw [filter_response_single fields spec hstrip hne hstar]
    simp only [apply_spec, hparse]
    simp only [List.isEmpty_cons, Bool.false_eq_true, if_false, List.findIdx?_cons,
      is_coll_seg, List.findIdx?_nil, Option.map_none', Option.map_some', if_true,
      eq_self_iff_true, Nat.zero_add]
    simp only [List.take_succ_cons, List.take_zero, List.drop_succ_cons, List.drop_zero,
      List.getD_cons_succ, List.getD_cons_zero]
    simp only [hgv_data, Bool.not_true, Bool.false_eq_true, if_false]
    simp only [resolve_list_segment, hpe, Bool.false_eq_true, if_false]
    show ((iter_write (([] : List Value) ++ List.replicate elems.length (Value.obj []))
        [Seg.key k] (List.enumFrom (List.length ([] : List Value)) elems)).map Value.arr).map
        (fun c => Value.obj ([] ++ [("data", c)])) = _
    rw [iter_write_key k elems []]
    rfl
  · intro fields elems a spec hstrip hparse hci hne0
    have hne : spec ≠ "" := by
      intro h; subst h
      rw [show parse_path_segments "" = some [] from rfl] at hparse
      simp at hparse
    have hstar : spec ≠ "*" := by
      intro h; subst h
      rw [show parse_path_segments "*" = some [Seg.key "*"] from rfl] at hparse
      simp at hparse
    have hpe : (List.enum elems).isEmpty = false := by
      cases elems with
      | nil => exact absurd rfl hne0
      | cons _ _ => rfl
    have hgv_data : get_value (Value.obj fields) [Seg.key "data"] = (true, Value.arr elems) := by
      simp [get_value, hci]
    rw [filter_response_single fields spec hstrip hne hstar]
    simp only [apply_spec, hparse]
    simp only [List.isEmpty_cons, Bool.false_eq_true, if_false, List.findIdx?_cons,
      is_coll_seg, List.findIdx?_nil, Option.map_none', Option.map_some', if_true,
      eq_self_iff_true, Nat.zero_add]
    simp only [List.take_succ_cons, List.take_zero, List.drop_succ_cons, List.drop_zero,
      List.getD_cons_succ, List.getD_cons_zero]
    simp only [hgv_data, Bool.not_true, Bool.false_eq_true, if_false]
    simp only [resolve_list_segment, hpe, Bool.false_eq_true, if_false]
    show ((iter_write (([] : List Value) ++ List.replicate elems.length (Value.obj []))
        [] (List.enumFrom (List.length ([] : List Value)) elems)).map Value.arr).map
        (fun c => Value.obj ([] ++ [("data", c)])) = _
    rw [iter_write_verbatim elems []]
    rfl

/-- Claim C4 witness: the iterate theorem applied at the claim's own
example `filter_response({"data": [{"id":1,"name":"A"},{"id":2,"name":"B"}]},
["data[].id"])`. -/
theorem claim_C4_witness :
    py_strip "data[].id" = "data[].id" ∧
    parse_path_segments "data[].id" = some [Seg.key "data", Seg.iter, Seg.key "id"] ∧
    ci_get [("data", Value.arr [Value.obj [("id", Value.num 1), ("name", Value.str "A")],
        Value.obj [("id", Value.num 2), ("name", Value.str "B")]])] "data" =
      some ("data", Value.arr [Value.obj [("id", Value.num 1), ("name", Value.str "A")],
        Value.obj [("id", Value.num 2), ("name", Value.str "B")]]) ∧
    filter_response (.obj [("data", .arr [.obj [("id", .num 1), ("name", .str "A")],
        .obj [("id", .num 2), ("name", .str "B")]])]) ["data[].id"] =
      some (.obj [("data", .arr [.obj [("id", .num 1)], .obj [("id", .num 2)]])]) :=
  ⟨rfl, rfl, rfl, by
    have h := claim_C4_theorem.1
      [("data", Value.arr [Value.obj [("id", Value.num 1), ("name", Value.str "A")],
        Value.obj [("id", Value.num 2), ("name", Value.str "B")]])]
      [Value.obj [("id", Value.num 1), ("name", Value.str "A")],
        Value.obj [("id", Value.num 2), ("name", Value.str "B")]]
      "data" "id" "data[].id" rfl rfl rfl (by simp)
    exact h⟩

/-- `slice_write` with a one-key suffix appends one `{k: x}` entry per
selected pair whose extraction finds `x`. -/
theorem slice_write_key (k : String) :
    ∀ (pairs : List (Nat × Value)) (c : List Value),
      slice_write c [Seg.key k] pairs =
      some (c ++ pairs.filterMap fun pr =>
        match get_value pr.2 [Seg.key k] with
        | (true, x) => some (Value.obj [(k, x)])
        | _ => none) := by
  intro pairs
  induction pairs with
  | nil => intro c; simp [slice_write]
  | cons q ps ih =>
      intro c
      obtain ⟨j, item⟩ := q
      rw [slice_write]
      rcases hgv : get_value item [Seg.key k] with ⟨found, value⟩
      simp only [List.isEmpty_cons, Bool.false_eq_true, if_false, hgv]
      cases found with
      | true =>
          simp only [if_pos rfl, if_true, eq_self_iff_true]
          rw [show set_in_result (Value.obj []) [Seg.key k] value =
            some (Value.obj [(k, value)]) from rfl]
          show slice_write (c ++ [Value.obj [(k, value)]]) [Seg.key k] ps = _
          rw [ih]
          simp [hgv, List.append_assoc]
      | false =>
          simp only [Bool.false_eq_true, if_false]
          rw [ih]
          simp [hgv]

/-- `slice_write` with no suffix appends every selected element. -/
theorem slice_write_verbatim :
    ∀ (pairs : List (Nat × Value)) (c : List Value),
      slice_write c [] pairs = some (c ++ pairs.map Prod.snd) := by
  intro pairs
  induction pairs with
  | nil => intro c; simp [slice_write]
  | cons q ps ih =>
      intro c
      obtain ⟨j, item⟩ := q
      rw [slice_write]
      simp only [List.isEmpty_nil, if_pos rfl, if_true]
      rw [ih]
      simp

/-- Claim C5: a Slice or negative-Index collection point builds a
compact, freshly-indexed output array by appending one entry per
selected pair (the suffix-extracted partial object, or the raw
element), with no padding; in particular
`filter_response({"items":[{"id":1},{"id":2},{"id":3}]}, ["items[-1].id"])
= {"items":[{"id":3}]}` and `["items[1:3]"]` yields the two sliced
elements at fresh indices 0 and 1. -/
theorem claim_C5_theorem :
    (∀ (fields : List (String × Value)) (elems : List Value) (a p k spec : String) (cs : Seg),
        py_strip spec = spec →
        parse_path_segments spec = some [Seg.key p, cs, Seg.key k] →
        is_coll_seg cs = true → cs ≠ Seg.iter →
        ci_get fields p = some (a, .arr elems) →
        resolve_list_segment elems cs ≠ [] →
        filter_response (.obj fields) [spec] =
          some (.obj [(p, .arr ((resolve_list_segment elems cs).filterMap fun pr =>
            match get_value pr.2 [Seg.key k] with
            | (true, x) => some (Value.obj [(k, x)])
            | _ => none))])) ∧
    (∀ (fields : List (String × Value)) (elems : List Value) (a p spec : String) (cs : Seg),
        py_strip spec = spec →
        parse_path_segments spec = some [Seg.key p, cs] →
        is_coll_seg cs = true → cs ≠ Seg.iter →
        ci_get fields p = some (a, .arr elems) →
        resolve_list_segment elems cs ≠ [] →
        filter_response (.obj fields) [spec] =
          some (.obj [(p, .arr ((resolve_list_segment elems cs).map Prod.snd))])) ∧
    filter_response (.obj [("items", .arr [.obj [("id", .num 1)], .obj [("id", .num 2)],
        .obj [("id", .num 3)]])]) ["items[-1].id"] =
      some (.obj [("items", .arr [.obj [("id", .num 3)]])]) ∧
    filter_response (.obj [("items", .arr [.obj [("id", .num 1)], .obj [("id", .num 2)],
        .obj [("id", .num 3)]])]) ["items[1:3]"] =
      some (.obj [("items", .arr [.obj [("id", .num 2)], .obj [("id", .num 3)]])]) := by
  refine ⟨?_, ?_, rfl, rfl⟩
  · intro fields elems a p k spec cs hstrip hparse hcoll hiter hci hpairs
    have hne : spec ≠ "" := by
      intro h; subst h
      rw [show parse_path_segments "" = some [] from rfl] at hparse
      simp at hparse
    have hstar : spec ≠ "*" := by
      intro h; subst h
      rw [show parse_path_segments "*" = some [Seg.key "*"] from rfl] at hparse
      simp at hparse
    have hpe : (resolve_list_segment elems cs).isEmpty = false := by
      cases h : resolve_list_segment elems cs with
      | nil => exact absurd h hpairs
      | cons _ _ => rfl
    have hgv_data : get_value (Value.obj fields) [Seg.key p] = (true, Value.arr elems) := by
      simp [get_value, hci]
    rw [filter_response_single fields spec hstrip hne hstar]
    cases cs with
    | key kk => simp [is_coll_seg] at hcoll
    | iter => exact absurd rfl hiter
    | idx i =>
        simp only [apply_spec, hparse]
        simp only [List.isEmpty_cons, Bool.false_eq_true, if_false, List.findIdx?_cons,
          show is_coll_seg (Seg.key p) = false from rfl, hcoll,
          Option.map_none', Option.map_some', if_true,
          eq_self_iff_true, Nat.zero_add]
        simp only [List.take_succ_cons, List.take_zero, List.drop_succ_cons, List.drop_zero,
          List.getD_cons_succ, List.getD_cons_zero]
        simp only [hgv_data, Bool.not_true, Bool.false_eq_true, if_false]
        simp only [hpe, Bool.false_eq_true, if_false]
        show ((slice_write ([] : List Value) [Seg.key k]
            (resolve_list_segment elems (Seg.idx i))).map Value.arr).map
            (fun c => Value.obj ([] ++ [(p, c)])) = _
        rw [slice_write_key k (resolve_list_segment elems (Seg.idx i)) []]
        rfl
    | slice s1 s2 =>
        simp only [apply_spec, hparse]
        simp only [List.isEmpty_cons, Bool.false_eq_true, if_false, List.findIdx?_cons,
          show is_coll_seg (Seg.key p) = false from rfl, hcoll,
          Option.map_none', Option.map_some', if_true,
          eq_self_iff_true, Nat.zero_add]
        simp only [List.take_succ_cons, List.take_zero, List.drop_succ_cons, List.drop_zero,
          List.getD_cons_succ, List.getD_cons_zero]
        simp only [hgv_data, Bool.not_true, Bool.false_eq_true, if_false]
        simp only [hpe, Bool.false_eq_true, if_false]
        show ((slice_write ([] : List Value) [Seg.key k]
            (resolve_list_segment elems (Seg.slice s1 s2))).map Value.arr).map
            (fun c => Value.obj ([] ++ [(p, c)])) = _
        rw [slice_write_key k (resolve_list_segment elems (Seg.slice s1 s2)) []]
        rfl
  · intro fields elems a p spec cs hstrip hparse hcoll hiter hci hpairs
    have hne : spec ≠ "" := by
      intro h; subst h
      rw [show parse_path_segments "" = some [] from rfl] at hparse
      simp at hparse
    have hstar : spec ≠ "*" := by
      intro h; subst h
      rw [show parse_path_segments "*" = some [Seg.key "*"] from rfl] at hparse
      simp at hparse
    have hpe : (resolve_list_segment elems cs).isEmpty = false := by
      cases h : resolve_list_segment elems cs with
      | nil => exact absurd h hpairs
      | cons _ _ => rfl
    have hgv_data : get_value (Value.obj fields) [Seg.key p] = (true, Value.arr elems) := by
      simp [get_value, hci]
    rw [filter_response_single fields spec hstrip hne hstar]
    cases cs with
    | key kk => simp [is_coll_seg] at hcoll
    | iter => exact absurd rfl hiter
    | idx i =>
        simp only [apply_spec, hparse]
        simp only [List.isEmpty_cons, Bool.false_eq_true, if_false, List.findIdx?_cons,
          show is_coll_seg (Seg.key p) = false from rfl, hcoll,
          Option.map_none', Option.map_some', if_true,
          eq_self_iff_true, Nat.zero_add]
        simp only [List.take_succ_cons, List.take_zero, List.drop_succ_cons, List.drop_zero,
          List.getD_cons_succ, List.getD_cons_zero]
        simp only [hgv_data, Bool.not_true, Bool.false_eq_true, if_false]
        simp only [hpe, Bool.false_eq_true, if_false]
        show ((slice_write ([] : List Value) []
            (resolve_list_segment elems (Seg.idx i))).map Value.arr).map
            (fun c => Value.obj ([] ++ [(p, c)])) = _
        rw [slice_write_verbatim (resolve_list_segment elems (Seg.idx i)) []]
        rfl
    | slice s1 s2 =>
        simp only [apply_spec, hparse]
        simp only [List.isEmpty_cons, Bool.false_eq_true, if_false, List.findIdx?_cons,
          show is_coll_seg (Seg.key p) = false from rfl, hcoll,
          Option.map_none', Option.map_some', if_true,
          eq_self_iff_true, Nat.zero_add]
        simp only [List.take_succ_cons, List.take_zero, List.drop_succ_cons, List.drop_zero,
          List.getD_cons_succ, List.getD_cons_zero]
        simp only [hgv_data, Bool.not_true, Bool.false_eq_true, if_false]
        simp only [hpe, Bool.false_eq_true, if_false]
        show ((slice_write ([] : List Value) []
            (resolve_list_segment elems (Seg.slice s1 s2))).map Value.arr).map
            (fun c => Value.obj ([] ++ [(p, c)])) = _
        rw [slice_write_verbatim (resolve_list_segment elems (Seg.slice s1 s2)) []]
        rfl

/-- Claim C5 witness: the slice/negative-index theorem applied at the
claim's own example `filter_response({"items": [...]}, ["items[-1].id"])`. -/
theorem claim_C5_witness :
    py_strip "items[-1].id" = "items[-1].id" ∧
    parse_path_segments "items[-1].id" = some [Seg.key "items", Seg.idx (-1), Seg.key "id"] ∧
    is_coll_seg (Seg.idx (-1)) = true ∧
    ci_get [("items", Value.arr [Value.obj [("id", Value.num 1)], Value.obj [("id", Value.num 2)],
        Value.obj [("id", Value.num 3)]])] "items" =
      some ("items", Value.arr [Value.obj [("id", Value.num 1)], Value.obj [("id", Value.num 2)],
        Value.obj [("id", Value.num 3)]]) ∧
    filter_response (.obj [("items", .arr [.obj [("id", .num 1)], .obj [("id", .num 2)],
        .obj [("id", .num 3)]])]) ["items[-1].id"] =
      some (.obj [("items", .arr [.obj [("id", .num 3)]])]) :=
  ⟨rfl, rfl, rfl, rfl, by
    have h := claim_C5_theorem.1
      [("items", Value.arr [Value.obj [("id", Value.num 1)], Value.obj [("id", Value.num 2)],
        Value.obj [("id", Value.num 3)]])]
      [Value.obj [("id", Value.num 1)], Value.obj [("id", Value.num 2)],
        Value.obj [("id", Value.num 3)]]
      "items" "items" "id" "items[-1].id" (Seg.idx (-1)) rfl rfl rfl (by decide) rfl
      (by rw [show resolve_list_segment
        [Value.obj [("id", Value.num 1)], Value.obj [("id", Value.num 2)],
          Value.obj [("id", Value.num 3)]] (Seg.idx (-1)) =
        [(2, Value.obj [("id", Value.num 3)])] from rfl]; simp)
    exact h⟩

theorem lookup_field_obj_set_self {α : Type} (f : List (String × α)) (k : String) (x : α) :
    lookup_field (obj_set f k x) k = some x := by
  induction f with
  | nil => simp [obj_set, lookup_field]
  | cons p rest ih =>
      obtain ⟨k', v⟩ := p
      by_cases h : k' = k
      · simp [obj_set, lookup_field, h]
      · simp [obj_set, lookup_field, h, ih]

theorem obj_set_idem {α : Type} (f : List (String × α)) (k : String) (x : α) :
    obj_set (obj_set f k x) k x = obj_set f k x := by
  induction f with
  | nil => simp [obj_set]
  | cons p rest ih =>
      obtain ⟨k', v⟩ := p
      by_cases h : k' = k
      · simp [obj_set, h]
      · simp [obj_set, h, ih]

theorem lookup_field_obj_set_ne {α : Type} (f : List (String × α)) {a k : String} (c : α)
    (h : a ≠ k) : lookup_field (obj_set f a c) k = lookup_field f k := by
  induction f with
  | nil => simp [obj_set, lookup_field, h]
  | cons p rest ih =>
      obtain ⟨k', v⟩ := p
      by_cases h' : k' = a
      · subst h'
        simp [obj_set, lookup_field, h]
      · simp [obj_set, lookup_field, h', ih]

theorem lookup_lower_some_lower {f : List (String × Value)} {L a : String} {v : Value}
    (h : lookup_lower f L = some (a, v)) : lower_str a = L := by
  induction f with
  | nil => simp [lookup_lower] at h
  | cons p rest ih =>
      obtain ⟨k', v'⟩ := p
      by_cases h' : lower_str k' = L
      · simp [lookup_lower, h'] at h
        rw [← h.1, h']
      · simp [lookup_lower, h'] at h
        exact ih h

theorem lookup_lower_isSome {f : List (String × Value)} {L a : String} {v : Value}
    (h : lookup_lower f L = some (a, v)) : (lookup_field f a).isSome := by
  induction f with
  | nil => simp [lookup_lower] at h
  | cons p rest ih =>
      obtain ⟨k', v'⟩ := p
      by_cases h' : lower_str k' = L
      · simp [lookup_lower, h'] at h
        simp [lookup_field, h.1]
      · simp [lookup_lower, h'] at h
        by_cases hk : k' = a
        · simp [lookup_field, hk]
        · simp [lookup_field, hk]
          exact ih h

theorem lookup_lower_obj_set {f : List (String × Value)} {L a : String} {ch : Value}
    (h : lookup_lower f L = some (a, ch)) (c : Value) :
    lookup_lower (obj_set f a c) L = some (a, c) := by
  induction f with
  | nil => simp [lookup_lower] at h
  | cons p rest ih =>
      obtain ⟨k', v'⟩ := p
      by_cases h' : lower_str k' = L
      · simp [lookup_lower, h'] at h
        obtain ⟨hk, _⟩ := h
        subst hk
        simp [obj_set, lookup_lower, h']
      · simp [lookup_lower, h'] at h
        have hka : k' ≠ a := by
          intro e
          subst e
          exact h' (lookup_lower_some_lower h)
        simp [obj_set, hka, lookup_lower, h']
        exact ih h

theorem ci_get_obj_set {f : List (String × Value)} {k a : String} {ch : Value}
    (h : ci_get f k = some (a, ch)) (c : Value) :
    ci_get (obj_set f a c) k = some (a, c) := by
  unfold ci_get at h ⊢
  cases hl : lookup_field f k with
  | some v =>
      rw [hl] at h
      have hpair : (k, v) = (a, ch) := Option.some.inj h
      have hk : a = k := (congrArg Prod.fst hpair).symm
      subst hk
      rw [lookup_field_obj_set_self]
  | none =>
      rw [hl] at h
      have hak : a ≠ k := by
        intro e
        subst e
        have := lookup_lower_isSome h
        rw [hl] at this
        simp at this
      rw [lookup_field_obj_set_ne f c hak, hl]
      exact lookup_lower_obj_set h c

theorem lookup_field_append_self {α : Type} {f : List (String × α)} {k : String}
    (h : lookup_field f k = none) (c : α) :
    lookup_field (f ++ [(k, c)]) k = some c := by
  induction f with
  | nil => simp [lookup_field]
  | cons p rest ih =>
      obtain ⟨k', v⟩ := p
      by_cases h' : k' = k
      · simp [lookup_field, h'] at h
      · simp [lookup_field, h'] at h ⊢
        exact ih h

theorem ci_get_none_parts {f : List (String × Value)} {k : String}
    (h : ci_get f k = none) :
    lookup_field f k = none ∧ lookup_lower f (lower_str k) = none := by
  unfold ci_get at h
  cases hl : lookup_field f k with
  | some v => rw [hl] at h; cases h
  | none =>
      rw [hl] at h
      exact ⟨rfl, h⟩

theorem ci_get_append_self {f : List (String × Value)} {k : String}
    (h : ci_get f k = none) (c : Value) :
    ci_get (f ++ [(k, c)]) k = some (k, c) := by
  obtain ⟨h1, _⟩ := ci_get_none_parts h
  unfold ci_get
  rw [lookup_field_append_self h1 c]

theorem obj_set_append_of_none {f : List (String × Value)} {k : String}
    (h : lookup_field f k = none) (c c' : Value) :
    obj_set (f ++ [(k, c)]) k c' = f ++ [(k, c')] := by
  induction f with
  | nil => simp [obj_set]
  | cons p rest ih =>
      obtain ⟨k', v⟩ := p
      by_cases h' : k' = k
      · simp [lookup_field, h'] at h
      · simp [lookup_field, h'] at h
        simp [obj_set, h', ih h]

theorem getD_set_self (l : List Value) (n : Nat) (a d : Value) (h : n < l.length) :
    (l.set n a).getD n d = a := by
  induction l generalizing n with
  | nil => simp at h
  | cons b bs ih =>
      cases n with
      | zero => rfl
      | succ m => simpa using ih m (by simpa using h)

/-- On a collection-free (Key / non-negative Index) segment path,
`_set_in_result` always succeeds, is idempotent, and preserves the
target's outermost type. -/
theorem set_in_result_total_idem (x : Value) :
    ∀ (segs : List Seg), simple_segs segs = true → ∀ t : Value,
      ∃ t', set_in_result t segs x = some t' ∧
        set_in_result t' segs x = some t' ∧ vkind t' = vkind t := by
  intro segs
  induction segs with
  | nil =>
      intro _ t
      exact ⟨t, rfl, rfl, rfl⟩
  | cons seg rest ih =>
      intro hs t
      cases rest with
      | nil =>
          have hseg : simple_seg seg = true := by
            simpa [simple_segs, List.all_cons] using hs
          cases seg with
          | key k =>
              cases t with
              | obj f =>
                  exact ⟨.obj (obj_set f k x), rfl, by simp [set_in_result, obj_set_idem], rfl⟩
              | null => exact ⟨.null, rfl, rfl, rfl⟩
              | bool b => exact ⟨.bool b, rfl, rfl, rfl⟩
              | num n => exact ⟨.num n, rfl, rfl, rfl⟩
              | str s => exact ⟨.str s, rfl, rfl, rfl⟩
              | arr l => exact ⟨.arr l, rfl, rfl, rfl⟩
          | idx i =>
              have hi : 0 ≤ i := by simpa [simple_seg] using hseg
              cases t with
              | arr elems =>
                  refine ⟨.arr ((elems ++ List.replicate (i.toNat + 1 - elems.length)
                    Value.null).set i.toNat x), ?_, ?_, rfl⟩
                  · simp [set_in_result, hi]
                  · simp [set_in_result, hi, List.set_set,
                      show i.toNat + 1 - (elems.length + (i.toNat + 1 - elems.length)) = 0
                        from by omega]
              | null => exact ⟨.null, by simp [set_in_result], by simp [set_in_result], rfl⟩
              | bool b => exact ⟨.bool b, by simp [set_in_result], by simp [set_in_result], rfl⟩
              | num n => exact ⟨.num n, by simp [set_in_result], by simp [set_in_result], rfl⟩
              | str s => exact ⟨.str s, by simp [set_in_result], by simp [set_in_result], rfl⟩
              | obj f => exact ⟨.obj f, by simp [set_in_result], by simp [set_in_result], rfl⟩
          | iter => simp [simple_segs, List.all_cons, simple_seg] at hs
          | slice s1 s2 => simp [simple_segs, List.all_cons, simple_seg] at hs
      | cons s2 r2 =>
          have hseg : simple_seg seg = true := by
            have h' := hs
            simp [simple_segs, List.all_cons] at h'
            exact h'.1
          have hrest : simple_segs (s2 :: r2) = true := by
            have h' := hs
            simp [simple_segs, List.all_cons] at h' ⊢
            exact ⟨h'.2.1, h'.2.2⟩
          cases seg with
          | key k =>
              cases t with
              | obj f =>
                  cases hci : ci_get f k with
                  | some pr =>
                      obtain ⟨actual, child⟩ := pr
                      obtain ⟨c', h1, h2, _⟩ := ih hrest child
                      refine ⟨.obj (obj_set f actual c'), ?_, ?_, rfl⟩
                      · simp [set_in_result, hci, h1]
                      · simp [set_in_result, ci_get_obj_set hci c', h2, obj_set_idem]
                  | none =>
                      obtain ⟨c', h1, h2, _⟩ :=
                        ih hrest (if seg_wants_list s2 then Value.arr [] else Value.obj [])
                      refine ⟨.obj (f ++ [(k, c')]), ?_, ?_, rfl⟩
                      · simp [set_in_result, hci, head_seg, h1]
                      · have hparts := ci_get_none_parts hci
                        simp [set_in_result, ci_get_append_self hci c', h2,
                          obj_set_append_of_none hparts.1]
              | null =>
                  obtain ⟨t', h1, h2, hk⟩ := ih hrest .null
                  refine ⟨t', by simp [set_in_result, h1], ?_, hk⟩
                  cases t' <;> simp [vkind] at hk <;> simp [set_in_result, h2]
              | bool b =>
                  obtain ⟨t', h1, h2, hk⟩ := ih hrest (.bool b)
                  refine ⟨t', by simp [set_in_result, h1], ?_, hk⟩
                  cases t' <;> simp [vkind] at hk <;> simp [set_in_result, h2]
              | num n =>
                  obtain ⟨t', h1, h2, hk⟩ := ih hrest (.num n)
                  refine ⟨t', by simp [set_in_result, h1], ?_, hk⟩
                  cases t' <;> simp [vkind] at hk <;> simp [set_in_result, h2]
              | str s =>
                  obtain ⟨t', h1, h2, hk⟩ := ih hrest (.str s)
                  refine ⟨t', by simp [set_in_result, h1], ?_, hk⟩
                  cases t' <;> simp [vkind] at hk <;> simp [set_in_result, h2]
              | arr l =>
                  obtain ⟨t', h1, h2, hk⟩ := ih hrest (.arr l)
                  refine ⟨t', by simp [set_in_result, h1], ?_, hk⟩
                  cases t' <;> simp [vkind] at hk <;> simp [set_in_result, h2]
          | idx i =>
              have hi : 0 ≤ i := by simpa [simple_seg] using hseg
              cases t with
              | arr elems =>
                  obtain ⟨c', h1, h2, _⟩ := ih hrest
                    ((elems ++ List.replicate (i.toNat + 1 - elems.length)
                      (Value.obj [])).getD i.toNat Value.null)
                  refine ⟨.arr ((elems ++ List.replicate (i.toNat + 1 - elems.length)
                    (Value.obj [])).set i.toNat c'), ?_, ?_, rfl⟩
                  · simp [set_in_result, hi]
                    exact ⟨c', by simpa [List.getD] using h1, rfl⟩
                  · have hlen : i.toNat <
                        (elems ++ List.replicate (i.toNat + 1 - elems.length)
                          (Value.obj [])).length := by
                      simp
                      omega
                    have hge : i.toNat + 1 -
                        ((elems ++ List.replicate (i.toNat + 1 - elems.length)
                          (Value.obj [])).set i.toNat c').length = 0 := by
                      simp
                      omega
                    simp only [set_in_result, hi, if_pos, hge, List.replicate_zero,
                      List.append_nil]
                    rw [getD_set_self _ _ _ _ (by simpa using hlen)]
                    simp [h2, List.set_set]
              | null =>
                  obtain ⟨t', h1, h2, hk⟩ := ih hrest .null
                  refine ⟨t', by simp [set_in_result, h1], ?_, hk⟩
                  cases t' <;> simp [vkind] at hk <;> simp [set_in_result, h2]
              | bool b =>
                  obtain ⟨t', h1, h2, hk⟩ := ih hrest (.bool b)
                  refine ⟨t', by simp [set_in_result, h1], ?_, hk⟩
                  cases t' <;> simp [vkind] at hk <;> simp [set_in_result, h2]
              | num n =>
                  obtain ⟨t', h1, h2, hk⟩ := ih hrest (.num n)
                  refine ⟨t', by simp [set_in_result, h1], ?_, hk⟩
                  cases t' <;> simp [vkind] at hk <;> simp [set_in_result, h2]
              | str s =>
                  obtain ⟨t', h1, h2, hk⟩ := ih hrest (.str s)
                  refine ⟨t', by simp [set_in_result, h1], ?_, hk⟩
                  cases t' <;> simp [vkind] at hk <;> simp [set_in_result, h2]
              | obj f =>
                  obtain ⟨t', h1, h2, hk⟩ := ih hrest (.obj f)
                  refine ⟨t', by simp [set_in_result, h1], ?_, hk⟩
                  cases t' <;> simp [vkind] at hk <;> simp [set_in_result, h2]
          | iter => simp [simple_seg] at hseg
          | slice s1' s2' => simp [simple_seg] at hseg

theorem filter_response_not_obj (v : Value) (l : List String) (hv : vkind v ≠ 5) :
    filter_response v l = some v := by
  simp only [filter_response]
  split
  · rfl
  · split
    · rfl
    · cases v with
      | obj f => simp [vkind] at hv
      | null => rfl
      | bool b => rfl
      | num n => rfl
      | str s => rfl
      | arr el => rfl

theorem filter_response_pair (fields : List (String × Value)) (spec : String)
    (hstrip : py_strip spec = spec) (hne : spec ≠ "") (hstar : spec ≠ "*") :
    filter_response (.obj fields) [spec, spec] =
      apply_all (.obj fields) [spec, spec] (.obj []) := by
  unfold filter_response
  simp only [List.isEmpty_cons, List.map_cons, List.map_nil, hstrip, List.filter,
    if_neg, Bool.false_eq_true]
  rw [if_neg (by simp)]
  have hfilter : (decide (spec ≠ "")) = true := by simp [hne]
  simp only [hfilter]
  rw [if_neg (by simp [hne, eq_comm, hstar])]

theorem findIdx_none_of_simple :
    ∀ l : List Seg, simple_segs l = true → List.findIdx? is_coll_seg l = none := by
  intro l
  induction l with
  | nil => intro _; rfl
  | cons s rest ih =>
      intro h
      simp [simple_segs, List.all_cons] at h
      have h1 : is_coll_seg s = false := by
        cases s with
        | key k => rfl
        | idx i =>
            have := h.1
            simp [simple_seg] at this
            simp [is_coll_seg]
            omega
        | iter => simp [simple_seg] at h
        | slice a b => simp [simple_seg] at h
      rw [List.findIdx?_cons, h1]
      have h2 : simple_segs rest = true := by
        simp [simple_segs]
        exact h.2
      simp [ih h2]

theorem not_coll_simple (s : Seg) (h : is_coll_seg s = false) : simple_seg s = true := by
  cases s with
  | key k => rfl
  | idx i =>
      simp [is_coll_seg] at h
      simp [simple_seg]
      omega
  | iter => simp [is_coll_seg] at h
  | slice a b => simp [is_coll_seg] at h

theorem simple_of_findIdx_none :
    ∀ l : List Seg, List.findIdx? is_coll_seg l = none → simple_segs l = true := by
  intro l
  induction l with
  | nil => intro _; rfl
  | cons s rest ih =>
      intro h
      rw [List.findIdx?_cons] at h
      by_cases hc : is_coll_seg s
      · rw [if_pos hc] at h
        cases h
      · rw [if_neg hc, List.findIdx?_succ] at h
        cases hr : List.findIdx? is_coll_seg rest with
        | some j => rw [hr] at h; simp at h
        | none =>
            have hrec := ih hr
            simp [simple_segs, List.all_cons,
              not_coll_simple s (by simpa using hc)]
            simpa [simple_segs] using hrec

theorem findIdx_split :
    ∀ (l : List Seg) (i : Nat), List.findIdx? is_coll_seg l = some i →
      i < l.length ∧ simple_segs (l.take i) = true ∧
        is_coll_seg (l.getD i (.key "")) = true ∧ l.getD i (.key "") ∈ l := by
  intro l
  induction l with
  | nil => intro i h; simp [List.findIdx?] at h
  | cons s rest ih =>
      intro i h
      rw [List.findIdx?_cons] at h
      by_cases hc : is_coll_seg s
      · rw [if_pos hc] at h
        obtain rfl : (0 : Nat) = i := Option.some.inj h
        exact ⟨by simp, rfl, hc, by simp [List.getD_cons_zero]⟩
      · rw [if_neg hc, List.findIdx?_succ] at h
        cases hr : List.findIdx? is_coll_seg rest with
        | none => rw [hr] at h; simp at h
        | some j =>
            rw [hr] at h
            have hij : j + 1 = i := by simpa using h
            subst hij
            obtain ⟨h1, h2, h3, h4⟩ := ih j hr
            refine ⟨by simpa using h1, ?_, ?_, ?_⟩
            · simp only [List.take_succ_cons, simple_segs, List.all_cons]
              simp [not_coll_simple s (by simpa using hc)]
              simpa [simple_segs] using h2
            · simpa [List.getD_cons_succ] using h3
            · rw [List.getD_cons_succ]
              exact List.mem_cons_of_mem s h4

theorem get_value_iter_false :
    ∀ (segs : List Seg), Seg.iter ∈ segs → ∀ v : Value,
      get_value v segs = (false, .null) := by
  intro segs
  induction segs with
  | nil => intro h; simp at h
  | cons s rest ih =>
      intro hmem v
      rcases List.mem_cons.mp hmem with hs | hs
      · subst hs
        cases v <;> rfl
      · cases v with
        | null => rfl
        | obj fields =>
            cases s with
            | key k =>
                cases hci : ci_get fields k with
                | some pr =>
                    obtain ⟨a, ch⟩ := pr
                    simp [get_value, hci, ih hs]
                | none => simp [get_value, hci]
            | idx i => rfl
            | iter => rfl
            | slice a b => rfl
        | arr elems =>
            cases s with
            | key k => rfl
            | idx i =>
                cases hpl : py_list_get elems i with
                | some w => simp [get_value, hpl, ih hs]
                | none => simp [get_value, hpl]
            | iter => rfl
            | slice a b => rfl
        | bool b => cases s <;> rfl
        | num n => cases s <;> rfl
        | str t => cases s <;> rfl

theorem set_getElem_ne (l : List Value) (i j : Nat) (a : Value) (h : i ≠ j) :
    (l.set i a)[j]? = l[j]? := by
  induction l generalizing i j with
  | nil => simp
  | cons b bs ih =>
      cases i with
      | zero =>
          cases j with
          | zero => exact absurd rfl h
          | succ m => simp
      | succ n =>
          cases j with
          | zero => simp
          | succ m => simpa using ih n m (by omega)

theorem getD_of_getElem (l : List Value) (j : Nat) (x d : Value) (h : l[j]? = some x) :
    l.getD j d = x := by
  induction l generalizing j with
  | nil => simp at h
  | cons b bs ih =>
      cases j with
      | zero =>
          simp at h
          simp [List.getD_cons_zero, h]
      | succ m =>
          simp at h
          simpa [List.getD_cons_succ] using ih m h

theorem set_self : ∀ (l : List Value) (j : Nat) (x : Value), l[j]? = some x →
    l.set j x = l := by
  intro l
  induction l with
  | nil => intro j x h; simp at h
  | cons a as ih =>
      intro j x h
      cases j with
      | zero =>
          simp at h
          simp [h]
      | succ m =>
          simp at h
          simp [ih m x h]

theorem obj_of_vkind {t : Value} (h : vkind t = 5) : ∃ g, t = Value.obj g := by
  cases t <;> first | exact ⟨_, rfl⟩ | simp [vkind] at h

theorem get_set_self (l : List Value) (n : Nat) (a : Value) (h : n < l.length) :
    (l.set n a)[n]? = some a := by
  induction l generalizing n with
  | nil => simp at h
  | cons b bs ih =>
      cases n with
      | zero => simp
      | succ m => simpa using ih m (by simpa using h)

theorem iter_write_length :
    ∀ (ps : List (Nat × Value)) (suffix : List Seg) (l l' : List Value),
      iter_write l suffix ps = some l' → l'.length = l.length := by
  intro ps
  induction ps with
  | nil =>
      intro suffix l l' h
      simp [iter_write] at h
      simp [h]
  | cons p ps ih =>
      obtain ⟨j, item⟩ := p
      intro suffix l l' h
      by_cases he : suffix.isEmpty
      · simp only [iter_write, he, if_true] at h
        have := ih suffix _ _ h
        simpa using this
      · cases hgv : get_value item suffix with
        | mk found value =>
            cases found with
            | false =>
                simp [iter_write, he, hgv] at h
                exact ih suffix _ _ h
            | true =>
                simp [iter_write, he, hgv] at h
                split at h
                · have := ih suffix _ _ h
                  simpa using this
                · simp at h

theorem iter_write_untouched :
    ∀ (ps : List (Nat × Value)) (suffix : List Seg) (l l' : List Value) (j : Nat),
      j ∉ ps.map Prod.fst → iter_write l suffix ps = some l' → l'[j]? = l[j]? := by
  intro ps
  induction ps with
  | nil =>
      intro suffix l l' j _ h
      simp [iter_write] at h
      simp [h]
  | cons p ps ih =>
      obtain ⟨i, item⟩ := p
      intro suffix l l' j hj h
      simp only [List.map_cons, List.mem_cons] at hj
      push_neg at hj
      have hji : i ≠ j := fun e => hj.1 e.symm
      have hj' := hj.2
      by_cases he : suffix.isEmpty
      · simp only [iter_write, he, if_true] at h
        rw [ih suffix _ _ j hj' h, set_getElem_ne l i j item hji]
      · cases hgv : get_value item suffix with
        | mk found value =>
            cases found with
            | false =>
                simp [iter_write, he, hgv] at h
                exact ih suffix _ _ j hj' h
            | true =>
                simp [iter_write, he, hgv] at h
                split at h
                · rename_i cj2 heq
                  rw [ih suffix _ _ j hj' h, set_getElem_ne l i j cj2 hji]
                · simp at h

theorem iter_write_noop (suffix : List Seg) (hit : Seg.iter ∈ suffix) :
    ∀ (ps : List (Nat × Value)) (l : List Value), iter_write l suffix ps = some l := by
  intro ps
  induction ps with
  | nil => intro l; rfl
  | cons p ps ih =>
      obtain ⟨j, item⟩ := p
      intro l
      have he : suffix.isEmpty = false := by
        cases suffix with
        | nil => simp at hit
        | cons a b => rfl
      simp [iter_write, he, get_value_iter_false suffix hit item, ih]

theorem iter_write_idem :
    ∀ (ps : List (Nat × Value)) (suffix : List Seg), simple_segs suffix = true →
      ∀ (l l' : List Value),
      (ps.map Prod.fst).Nodup →
      (∀ p ∈ ps, p.1 < l.length) →
      iter_write l suffix ps = some l' →
      iter_write l' suffix ps = some l' := by
  intro ps
  induction ps with
  | nil =>
      intro suffix _ l l' _ _ h
      simp [iter_write] at h
      subst h
      rfl
  | cons p ps ih =>
      obtain ⟨j, item⟩ := p
      intro suffix hsuf l l' hnd hb h
      simp only [List.map_cons, List.nodup_cons] at hnd
      obtain ⟨hj, hnd'⟩ := hnd
      rw [List.forall_mem_cons] at hb
      obtain ⟨hjl, hb'⟩ := hb
      by_cases he : suffix.isEmpty
      · simp only [iter_write, he, if_true] at h ⊢
        have hbs : ∀ p ∈ ps, p.1 < (l.set j item).length := by
          simpa [List.length_set] using hb'
        have hrec := ih suffix hsuf (l.set j item) l' hnd' hbs h
        have hlj : l'[j]? = some item := by
          rw [iter_write_untouched ps suffix (l.set j item) l' j hj h]
          exact get_set_self l j item hjl
        rw [set_self l' j item hlj]
        exact hrec
      · cases hgv : get_value item suffix with
        | mk found value =>
            cases found with
            | false =>
                simp [iter_write, he, hgv] at h ⊢
                exact ih suffix hsuf l l' hnd' hb' h
            | true =>
                have hcjn : ∃ g,
                    (match l.getD j Value.null with
                     | Value.obj a => l.getD j Value.null
                     | _ => Value.obj []) = Value.obj g := by
                  cases l.getD j Value.null <;> exact ⟨_, rfl⟩
                obtain ⟨g, hg⟩ := hcjn
                obtain ⟨t', h1, h2, hk⟩ :=
                  set_in_result_total_idem value suffix hsuf (.obj g)
                simp only [iter_write, he, Bool.false_eq_true, if_false, hgv, if_true] at h
                rw [hg] at h
                simp only [h1] at h
                have hbs : ∀ p ∈ ps, p.1 < (l.set j t').length := by
                  simpa [List.length_set] using hb'
                have hrec := ih suffix hsuf (l.set j t') l' hnd' hbs h
                have hlj : l'[j]? = some t' := by
                  rw [iter_write_untouched ps suffix (l.set j t') l' j hj h]
                  exact get_set_self l j t' hjl
                obtain ⟨g2, rfl⟩ : ∃ g2, t' = Value.obj g2 :=
                  obj_of_vkind (by rw [hk]; rfl)
                simp only [iter_write, he, Bool.false_eq_true, if_false, hgv, if_true,
                  getD_of_getElem l' j (Value.obj g2) Value.null hlj]
                simp only [h2]
                rw [set_self l' j (Value.obj g2) hlj]
                exact hrec

theorem nav_upd_idem (f : Value → Option Value)
    (hf : ∀ c c', f c = some c' → f c' = some c' ∧ vkind c' = vkind c) :
    ∀ (pre : List Seg), simple_segs pre = true → ∀ (r t1 : Value),
      nav_upd r pre f = some t1 → nav_upd t1 pre f = some t1 ∧ vkind t1 = vkind r := by
  intro pre
  induction pre with
  | nil =>
      intro _ r t1 h
      exact hf r t1 h
  | cons seg rest ih =>
      intro hs r t1 h
      simp only [simple_segs, List.all_cons, Bool.and_eq_true] at hs
      obtain ⟨hseg, hrest'⟩ := hs
      have hrest : simple_segs rest = true := hrest'
      cases seg with
      | key k =>
          cases r with
          | obj fields =>
              cases hci : ci_get fields k with
              | some pr =>
                  obtain ⟨actual, child⟩ := pr
                  simp only [nav_upd, hci] at h
                  cases hnv : nav_upd child rest f with
                  | none => rw [hnv] at h; simp at h
                  | some c =>
                      rw [hnv] at h
                      simp at h
                      obtain ⟨h1, _⟩ := ih hrest child c hnv
                      subst h
                      refine ⟨?_, rfl⟩
                      simp [nav_upd, ci_get_obj_set hci c, h1, obj_set_idem]
              | none =>
                  simp only [nav_upd, hci] at h
                  cases hnv : nav_upd (if rest.isEmpty then Value.arr []
                      else Value.obj []) rest f with
                  | none => rw [hnv] at h; simp at h
                  | some c =>
                      rw [hnv] at h
                      simp at h
                      obtain ⟨h1, _⟩ := ih hrest _ c hnv
                      subst h
                      refine ⟨?_, rfl⟩
                      have hparts := ci_get_none_parts hci
                      simp [nav_upd, ci_get_append_self hci c, h1,
                        obj_set_append_of_none hparts.1]
          | null =>
              simp only [nav_upd] at h
              obtain ⟨h1, hk⟩ := ih hrest .null t1 h
              refine ⟨?_, hk⟩
              cases t1 <;> simp [vkind] at hk <;> simp [nav_upd, h1]
          | bool b =>
              simp only [nav_upd] at h
              obtain ⟨h1, hk⟩ := ih hrest (.bool b) t1 h
              refine ⟨?_, hk⟩
              cases t1 <;> simp [vkind] at hk <;> simp [nav_upd, h1]
          | num n =>
              simp only [nav_upd] at h
              obtain ⟨h1, hk⟩ := ih hrest (.num n) t1 h
              refine ⟨?_, hk⟩
              cases t1 <;> simp [vkind] at hk <;> simp [nav_upd, h1]
          | str s =>
              simp only [nav_upd] at h
              obtain ⟨h1, hk⟩ := ih hrest (.str s) t1 h
              refine ⟨?_, hk⟩
              cases t1 <;> simp [vkind] at hk <;> simp [nav_upd, h1]
          | arr l =>
              simp only [nav_upd] at h
              obtain ⟨h1, hk⟩ := ih hrest (.arr l) t1 h
              refine ⟨?_, hk⟩
              cases t1 <;> simp [vkind] at hk <;> simp [nav_upd, h1]
      | idx i =>
          have hi : 0 ≤ i := by simpa [simple_seg] using hseg
          cases r with
          | arr elems =>
              simp only [nav_upd] at h
              rw [if_pos hi] at h
              cases hnv : nav_upd ((elems ++ List.replicate (i.toNat + 1 - elems.length)
                  (Value.obj [])).getD i.toNat Value.null) rest f with
              | none => rw [hnv] at h; simp at h
              | some c =>
                  rw [hnv] at h
                  simp at h
                  obtain ⟨h1, _⟩ := ih hrest _ c hnv
                  subst h
                  refine ⟨?_, rfl⟩
                  have hlen : i.toNat < (elems ++ List.replicate (i.toNat + 1 - elems.length)
                      (Value.obj [])).length := by
                    simp
                    omega
                  have hge : i.toNat + 1 - ((elems ++ List.replicate (i.toNat + 1 - elems.length)
                      (Value.obj [])).set i.toNat c).length = 0 := by
                    simp
                    omega
                  simp only [nav_upd, hi, if_pos, hge, List.replicate_zero, List.append_nil]
                  rw [getD_set_self _ _ _ _ (by simpa using hlen)]
                  simp [h1, List.set_set]
          | null =>
              simp only [nav_upd] at h
              obtain ⟨h1, hk⟩ := ih hrest .null t1 h
              refine ⟨?_, hk⟩
              cases t1 <;> simp [vkind] at hk <;> simp [nav_upd, h1]
          | bool b =>
              simp only [nav_upd] at h
              obtain ⟨h1, hk⟩ := ih hrest (.bool b) t1 h
              refine ⟨?_, hk⟩
              cases t1 <;> simp [vkind] at hk <;> simp [nav_upd, h1]
          | num n =>
              simp only [nav_upd] at h
              obtain ⟨h1, hk⟩ := ih hrest (.num n) t1 h
              refine ⟨?_, hk⟩
              cases t1 <;> simp [vkind] at hk <;> simp [nav_upd, h1]
          | str s =>
              simp only [nav_upd] at h
              obtain ⟨h1, hk⟩ := ih hrest (.str s) t1 h
              refine ⟨?_, hk⟩
              cases t1 <;> simp [vkind] at hk <;> simp [nav_upd, h1]
          | obj fl =>
              simp only [nav_upd] at h
              obtain ⟨h1, hk⟩ := ih hrest (.obj fl) t1 h
              refine ⟨?_, hk⟩
              cases t1 <;> simp [vkind] at hk <;> simp [nav_upd, h1]
      | iter => simp [simple_seg] at hseg
      | slice s1 s2 => simp [simple_seg] at hseg

/-- One application of `_apply_spec` is idempotent whenever the spec's
path has no Slice and no negative-Index segment: the simple path writes
through `_set_in_result` (idempotent), and the Iterate path re-navigates
to the same container, pads nothing the second time, and repeats
idempotent per-element writes. -/
theorem apply_spec_idem (data : Value) (spec : String) (segs : List Seg)
    (hparse : parse_path_segments spec = some segs)
    (hsafe : iter_safe_segs segs = true) :
    ∀ r r1 : Value, apply_spec data spec r = some r1 →
      apply_spec data spec r1 = some r1 := by
  intro r r1 h
  by_cases hnil : segs.isEmpty
  · simp only [apply_spec, hparse, hnil, if_true] at h ⊢
  · have hnil' : segs.isEmpty = false := by
      cases hb : segs.isEmpty
      · rfl
      · exact absurd hb hnil
    cases hfind : List.findIdx? is_coll_seg segs with
    | none =>
        have hsimple := simple_of_findIdx_none segs hfind
        cases hgv : get_value data segs with
        | mk found value =>
            cases found with
            | false =>
                simp only [apply_spec, hparse, hnil', Bool.false_eq_true, if_false,
                  hfind, hgv] at h ⊢
            | true =>
                simp only [apply_spec, hparse, hnil', Bool.false_eq_true, if_false,
                  hfind, hgv, if_true] at h ⊢
                obtain ⟨t', h1, h2, _⟩ := set_in_result_total_idem value segs hsimple r
                rw [h1] at h
                obtain rfl := Option.some.inj h
                exact h2
    | some i =>
        obtain ⟨hlt, hpre, hcoll, hmem⟩ := findIdx_split segs i hfind
        have hsafe_i : iter_safe_seg (segs.getD i (.key "")) = true :=
          List.all_eq_true.mp hsafe _ hmem
        have hiter : segs.getD i (.key "") = Seg.iter := by
          cases hseg : segs.getD i (.key "") with
          | key k =>
              rw [hseg] at hcoll
              simp [is_coll_seg] at hcoll
          | idx j =>
              rw [hseg] at hcoll hsafe_i
              simp [is_coll_seg] at hcoll
              simp [iter_safe_seg] at hsafe_i
              omega
          | iter => rfl
          | slice a b =>
              rw [hseg] at hsafe_i
              simp [iter_safe_seg] at hsafe_i
        have hsafe_suffix : ∀ s ∈ List.drop (i + 1) segs, iter_safe_seg s = true := by
          intro s hs
          exact List.all_eq_true.mp hsafe s (List.mem_of_mem_drop hs)
        cases hgv : get_value data (List.take i segs) with
        | mk found arrv =>
            cases found with
            | false =>
                simp only [apply_spec, hparse, hnil', Bool.false_eq_true, if_false,
                  hfind, hiter, hgv, Bool.not_false, if_true] at h ⊢
            | true =>
                cases arrv with
                | null =>
                    simp only [apply_spec, hparse, hnil', Bool.false_eq_true, if_false,
                      hfind, hiter, hgv, Bool.not_true] at h ⊢
                | bool b =>
                    simp only [apply_spec, hparse, hnil', Bool.false_eq_true, if_false,
                      hfind, hiter, hgv, Bool.not_true] at h ⊢
                | num n =>
                    simp only [apply_spec, hparse, hnil', Bool.false_eq_true, if_false,
                      hfind, hiter, hgv, Bool.not_true] at h ⊢
                | str s =>
                    simp only [apply_spec, hparse, hnil', Bool.false_eq_true, if_false,
                      hfind, hiter, hgv, Bool.not_true] at h ⊢
                | obj fl =>
                    simp only [apply_spec, hparse, hnil', Bool.false_eq_true, if_false,
                      hfind, hiter, hgv, Bool.not_true] at h ⊢
                | arr elems =>
                    by_cases hpe : (resolve_list_segment elems Seg.iter).isEmpty
                    · simp only [apply_spec, hparse, hnil', Bool.false_eq_true, if_false,
                        hfind, hiter, hgv, Bool.not_true, hpe, if_true] at h ⊢
                    · have hpe' : (resolve_list_segment elems Seg.iter).isEmpty = false := by
                        cases hb : (resolve_list_segment elems Seg.iter).isEmpty
                        · rfl
                        · exact absurd hb hpe
                      simp only [apply_spec, hparse, hnil', Bool.false_eq_true, if_false,
                        hfind, hiter, hgv, Bool.not_true, hpe', if_true] at h ⊢
                      refine (nav_upd_idem _ ?_ (List.take i segs) hpre r r1 h).1
                      intro c c' hc
                      cases c with
                      | null =>
                          have hc' : some Value.null = some c' := hc
                          obtain rfl := Option.some.inj hc'
                          exact ⟨rfl, rfl⟩
                      | bool b =>
                          have hc' : some (Value.bool b) = some c' := hc
                          obtain rfl := Option.some.inj hc'
                          exact ⟨rfl, rfl⟩
                      | num n =>
                          have hc' : some (Value.num n) = some c' := hc
                          obtain rfl := Option.some.inj hc'
                          exact ⟨rfl, rfl⟩
                      | str s =>
                          have hc' : some (Value.str s) = some c' := hc
                          obtain rfl := Option.some.inj hc'
                          exact ⟨rfl, rfl⟩
                      | obj fl =>
                          have hc' : some (Value.obj fl) = some c' := hc
                          obtain rfl := Option.some.inj hc'
                          exact ⟨rfl, rfl⟩
                      | arr celems =>
                          change (iter_write (celems ++ List.replicate
                            (elems.length - celems.length) (Value.obj []))
                            (List.drop (i + 1) segs) elems.enum).map Value.arr = some c' at hc
                          cases hiw : iter_write (celems ++ List.replicate
                              (elems.length - celems.length) (Value.obj []))
                              (List.drop (i + 1) segs) elems.enum with
                          | none =>
                              rw [hiw] at hc
                              simp at hc
                          | some dl =>
                              rw [hiw] at hc
                              simp at hc
                              subst hc
                              refine ⟨?_, rfl⟩
                              change (iter_write (dl ++ List.replicate
                                (elems.length - dl.length) (Value.obj []))
                                (List.drop (i + 1) segs) elems.enum).map Value.arr =
                                some (Value.arr dl)
                              have hdlen := iter_write_length _ _ _ _ hiw
                              have hplen : (celems ++ List.replicate
                                  (elems.length - celems.length) (Value.obj [])).length =
                                  celems.length + (elems.length - celems.length) := by
                                simp
                              rw [hplen] at hdlen
                              have hz : elems.length - dl.length = 0 := by omega
                              rw [hz, List.replicate_zero, List.append_nil]
                              by_cases hit : Seg.iter ∈ List.drop (i + 1) segs
                              · have hpad := iter_write_noop _ hit elems.enum
                                  (celems ++ List.replicate (elems.length - celems.length)
                                    (Value.obj []))
                                rw [hpad] at hiw
                                obtain rfl := Option.some.inj hiw
                                rw [iter_write_noop _ hit elems.enum _]
                                rfl
                              · have hsimple : simple_segs (List.drop (i + 1) segs) = true := by
                                  simp only [simple_segs, List.all_eq_true]
                                  intro s hsmem
                                  have hsi := hsafe_suffix s hsmem
                                  cases s with
                                  | key k => rfl
                                  | idx j => simpa [iter_safe_seg, simple_seg] using hsi
                                  | iter => exact absurd hsmem hit
                                  | slice a b => simp [iter_safe_seg] at hsi
                                have hnd : (elems.enum.map Prod.fst).Nodup := by
                                  rw [List.enum_map_fst]
                                  exact List.nodup_range elems.length
                                have hbound : ∀ p ∈ elems.enum, p.1 < (celems ++
                                    List.replicate (elems.length - celems.length)
                                    (Value.obj [])).length := by
                                  intro p hp
                                  have hm1 : p.1 ∈ elems.enum.map Prod.fst :=
                                    List.mem_map.mpr ⟨p, hp, rfl⟩
                                  rw [List.enum_map_fst] at hm1
                                  have hm2 := List.mem_range.mp hm1
                                  simp
                                  omega
                                rw [iter_write_idem elems.enum _ hsimple _ dl hnd hbound hiw]
                                rfl

/-- **C6 (amended).** Projection is invariant under duplicating any spec
whose path contains no Slice and no negative-Index segment — Key,
non-negative-Index and Iterate paths all satisfy
`project(v, [s, s]) = project(v, [s])`: the second application pads
nothing and repeats idempotent writes.  (Permutation invariance, and
duplication invariance for Slice / negative-Index specs, fail on the
code — see the counterexample.) -/
theorem claim_C6_theorem (v : Value) (spec : String) (segs : List Seg)
    (hstrip : py_strip spec = spec)
    (hparse : parse_path_segments spec = some segs)
    (hsafe : iter_safe_segs segs = true) :
    filter_response v [spec, spec] = filter_response v [spec] := by
  by_cases hne : spec = ""
  · subst hne
    rw [show filter_response v ["", ""] = some v from by simp [filter_response, py_strip, trim_chars],
        show filter_response v [""] = some v from by simp [filter_response, py_strip, trim_chars]]
  · by_cases hstar : spec = "*"
    · subst hstar
      rw [show filter_response v ["*", "*"] = some v from by
            simp [filter_response, show py_strip "*" = "*" from rfl],
          show filter_response v ["*"] = some v from by
            simp [filter_response, show py_strip "*" = "*" from rfl]]
    · cases v with
      | null =>
          rw [filter_response_not_obj .null [spec, spec] (by simp [vkind]),
              filter_response_not_obj .null [spec] (by simp [vkind])]
      | bool b =>
          rw [filter_response_not_obj (.bool b) [spec, spec] (by simp [vkind]),
              filter_response_not_obj (.bool b) [spec] (by simp [vkind])]
      | num n =>
          rw [filter_response_not_obj (.num n) [spec, spec] (by simp [vkind]),
              filter_response_not_obj (.num n) [spec] (by simp [vkind])]
      | str s =>
          rw [filter_response_not_obj (.str s) [spec, spec] (by simp [vkind]),
              filter_response_not_obj (.str s) [spec] (by simp [vkind])]
      | arr el =>
          rw [filter_response_not_obj (.arr el) [spec, spec] (by simp [vkind]),
              filter_response_not_obj (.arr el) [spec] (by simp [vkind])]
      | obj fields =>
          rw [filter_response_single fields spec hstrip hne hstar,
              filter_response_pair fields spec hstrip hne hstar]
          cases happ : apply_spec (.obj fields) spec (.obj []) with
          | none => simp [apply_all, happ]
          | some r1 =>
              have h2 := apply_spec_idem (.obj fields) spec segs hparse hsafe
                (.obj []) r1 happ
              simp [apply_all, happ, h2]

/-- Claim C6, counterexample: the projection is *not* invariant under
permutation of specs, nor under duplication of Slice or negative-Index
specs.  Duplicating the slice spec `"items[0:1]"` or the negative-index
spec `"items[-1]"` appends the selection twice; and for the overlapping
case-mismatched specs `"a"` / `"a.C"` the two orders produce different
outputs (under Python `==`). -/
theorem claim_C6_counterexample :
    (filter_response (.obj [("items", .arr [.num 1])]) ["items[0:1]", "items[0:1]"] =
        some (.obj [("items", .arr [.num 1, .num 1])]) ∧
      filter_response (.obj [("items", .arr [.num 1])]) ["items[0:1]"] =
        some (.obj [("items", .arr [.num 1])]) ∧
      py_eq (Value.obj [("items", .arr [.num 1, .num 1])])
        (Value.obj [("items", .arr [.num 1])]) = false) ∧
    (filter_response (.obj [("items", .arr [.num 7])]) ["items[-1]", "items[-1]"] =
        some (.obj [("items", .arr [.num 7, .num 7])]) ∧
      filter_response (.obj [("items", .arr [.num 7])]) ["items[-1]"] =
        some (.obj [("items", .arr [.num 7])]) ∧
      py_eq (Value.obj [("items", .arr [.num 7, .num 7])])
        (Value.obj [("items", .arr [.num 7])]) = false) ∧
    (filter_response (.obj [("a", .obj [("c", .num 1)])]) ["a", "a.C"] =
        some (.obj [("a", .obj [("c", .num 1), ("C", .num 1)])]) ∧
      filter_response (.obj [("a", .obj [("c", .num 1)])]) ["a.C", "a"] =
        some (.obj [("a", .obj [("c", .num 1)])]) ∧
      py_eq (Value.obj [("a", .obj [("c", .num 1), ("C", .num 1)])])
        (Value.obj [("a", .obj [("c", .num 1)])]) = false) :=
  ⟨⟨rfl, rfl, rfl⟩, ⟨rfl, rfl, rfl⟩, ⟨rfl, rfl, rfl⟩⟩

/-- Claim C6 witness: duplication invariance applied at the Iterate spec
`"data[].id"` over `{"data": [{"id": 1, "x": 2}]}`. -/
theorem claim_C6_witness :
    py_strip "data[].id" = "data[].id" ∧
    parse_path_segments "data[].id" = some [Seg.key "data", Seg.iter, Seg.key "id"] ∧
    iter_safe_segs [Seg.key "data", Seg.iter, Seg.key "id"] = true ∧
    filter_response (.obj [("data", .arr [.obj [("id", .num 1), ("x", .num 2)]])])
        ["data[].id", "data[].id"] =
      filter_response (.obj [("data", .arr [.obj [("id", .num 1), ("x", .num 2)]])])
        ["data[].id"] :=
  ⟨rfl, rfl, rfl,
    claim_C6_theorem (.obj [("data", .arr [.obj [("id", .num 1), ("x", .num 2)]])])
      "data[].id" [Seg.key "data", Seg.iter, Seg.key "id"] rfl rfl rfl⟩

theorem replicate_getElem (n m : Nat) (a : Value) (h : m < n) :
    (List.replicate n a)[m]? = some a := by
  induction n generalizing m with
  | zero => omega
  | succ k ih =>
      cases m with
      | zero => simp
      | succ j =>
          rw [show List.replicate (k + 1) a = a :: List.replicate k a from rfl,
            List.getElem?_cons_succ]
          exact ih j (by omega)

theorem getD_replicate_lt (n m : Nat) (a d : Value) (h : m < n) :
    (List.replicate n a).getD m d = a := by
  induction n generalizing m with
  | zero => omega
  | succ k ih =>
      cases m with
      | zero => rfl
      | succ j =>
          rw [show List.replicate (k + 1) a = a :: List.replicate k a from rfl,
            List.getD_cons_succ]
          exact ih j (by omega)

/-- Writing `x` along a collection-free path with no two consecutive
Index segments, starting from the matching fresh container, succeeds and
re-extracting the same path recovers `x`.  (Consecutive indices break
this because the list padding in `_ensure_container` always inserts
`{}`, never a nested list — see the C3 counterexample.) -/
theorem set_fresh :
    ∀ (segs : List Seg) (x : Value), simple_segs segs = true →
      no_idx_idx segs = true → segs ≠ [] →
      ∃ r, set_in_result (fresh_for (head_seg segs)) segs x = some r ∧
        get_value r segs = (true, x) := by
  intro segs
  induction segs with
  | nil => intro x _ _ h; exact absurd rfl h
  | cons s rest ih =>
      intro x hs hnoii _
      cases rest with
      | nil =>
          cases s with
          | key k =>
              refine ⟨.obj [(k, x)], rfl, ?_⟩
              simp [get_value, ci_get, lookup_field]
          | idx i =>
              have hi : 0 ≤ i := by simpa [simple_segs, simple_seg] using hs
              refine ⟨.arr ((List.replicate (i.toNat + 1) Value.null).set i.toNat x), ?_, ?_⟩
              · simp [set_in_result, fresh_for, head_seg, hi]
              · have hg := get_set_self (List.replicate (i.toNat + 1) Value.null) i.toNat x
                  (by simp)
                simp [get_value, py_list_get, hi, hg]
          | iter => simp [simple_segs, simple_seg] at hs
          | slice a b => simp [simple_segs, simple_seg] at hs
      | cons s2 r2 =>
          have hs2 : simple_segs (s2 :: r2) = true := by
            simp [simple_segs, List.all_cons] at hs ⊢
            exact ⟨hs.2.1, hs.2.2⟩
          cases s with
          | key k =>
              have hnoii2 : no_idx_idx (s2 :: r2) = true := by
                cases s2 <;> simpa [no_idx_idx] using hnoii
              obtain ⟨c, hc1, hc2⟩ := ih x hs2 hnoii2 (by simp)
              have hchild : (if seg_wants_list s2 then Value.arr [] else Value.obj []) =
                  fresh_for s2 := by
                cases s2 <;> rfl
              rw [show head_seg (s2 :: r2) = s2 from rfl] at hc1
              refine ⟨.obj [(k, c)], ?_, ?_⟩
              · show (set_in_result (if seg_wants_list s2 then Value.arr [] else Value.obj [])
                    (s2 :: r2) x).map (fun c => Value.obj ([] ++ [(k, c)])) =
                  some (Value.obj [(k, c)])
                rw [hchild, hc1]
                rfl
              · have hci : ci_get [(k, c)] k = some (k, c) := by simp [ci_get, lookup_field]
                rw [show get_value (Value.obj [(k, c)]) (Seg.key k :: s2 :: r2) =
                  (match ci_get [(k, c)] k with
                   | some (_, v) => get_value v (s2 :: r2)
                   | none => (false, Value.null)) from rfl]
                rw [hci]
                exact hc2
          | idx i =>
              have hi : 0 ≤ i := by
                simp [simple_segs, List.all_cons, simple_seg] at hs
                simpa using hs.1
              cases s2 with
              | idx j => simp [no_idx_idx] at hnoii
              | iter => simp [simple_segs, List.all_cons, simple_seg] at hs
              | slice a b => simp [simple_segs, List.all_cons, simple_seg] at hs
              | key k2 =>
                  have hnoii2 : no_idx_idx (Seg.key k2 :: r2) = true := by
                    simpa [no_idx_idx] using hnoii
                  obtain ⟨c, hc1, hc2⟩ := ih x hs2 hnoii2 (by simp)
                  refine ⟨.arr ((List.replicate (i.toNat + 1) (Value.obj [])).set i.toNat c),
                    ?_, ?_⟩
                  · have hrep := replicate_getElem (i.toNat + 1) i.toNat (Value.obj [])
                      (by omega)
                    simp only [head_seg, fresh_for] at hc1
                    simp [set_in_result, head_seg, fresh_for, hi, hrep, hc1]
                  · have hg := get_set_self (List.replicate (i.toNat + 1) (Value.obj []))
                      i.toNat c (by simp)
                    have hpl : py_list_get ((List.replicate (i.toNat + 1)
                        (Value.obj [])).set i.toNat c) i = some c := by
                      simp [py_list_get, hi, hg]
                    rw [show get_value
                        (Value.arr ((List.replicate (i.toNat + 1) (Value.obj [])).set i.toNat c))
                        (Seg.idx i :: Seg.key k2 :: r2) =
                      (match py_list_get ((List.replicate (i.toNat + 1)
                          (Value.obj [])).set i.toNat c) i with
                       | some v => get_value v (Seg.key k2 :: r2)
                       | none => (false, Value.null)) from rfl]
                    rw [hpl]
                    exact hc2
          | iter => simp [simple_segs, List.all_cons, simple_seg] at hs
          | slice a b => simp [simple_segs, List.all_cons, simple_seg] at hs

/-- Claim C3, counterexample: the projection/extraction round trip
fails for collection-free paths.  (1) Two consecutive Index segments:
for `{"a": [[1, 2]]}` the path `"a.0.1"` extracts `2`, but the
projection is `{"a": [{}]}` (the list padding inserts `{}` and the
nested index write is silently dropped), where the same path extracts
nothing.  (2) The degenerate path `"."` parses to no segments, extracts
the whole document, and projects to `{}`. -/
theorem claim_C3_counterexample :
    (parse_path_segments "a.0.1" = some [Seg.key "a", Seg.idx 0, Seg.idx 1] ∧
      get_value (.obj [("a", .arr [.arr [.num 1, .num 2]])])
        [Seg.key "a", Seg.idx 0, Seg.idx 1] = (true, .num 2) ∧
      filter_response (.obj [("a", .arr [.arr [.num 1, .num 2]])]) ["a.0.1"] =
        some (.obj [("a", .arr [.obj []])]) ∧
      get_value (.obj [("a", .arr [.obj []])])
        [Seg.key "a", Seg.idx 0, Seg.idx 1] = (false, .null)) ∧
    (parse_path_segments "." = some [] ∧
      get_value (.obj [("x", .num 5)]) [] = (true, .obj [("x", .num 5)]) ∧
      filter_response (.obj [("x", .num 5)]) ["."] = some (.obj []) ∧
      py_eq (Value.obj []) (.obj [("x", .num 5)]) = false) :=
  ⟨⟨rfl, rfl, rfl, rfl⟩, ⟨rfl, rfl, rfl, rfl⟩⟩

/-- Claim C3 as amended: for every path whose parsed segments are
nonempty, collection-free (Key / non-negative Index) and have no two
consecutive Index segments, a successful extraction survives the
projection: extracting the same path from `filter_response(v, [p])`
yields the same value. -/
theorem claim_C3_theorem (v : Value) (spec : String) (segs : List Seg) (x : Value)
    (hstrip : py_strip spec = spec)
    (hparse : parse_path_segments spec = some segs)
    (hnil : segs ≠ [])
    (hsimple : simple_segs segs = true)
    (hnoii : no_idx_idx segs = true)
    (hget : get_value v segs = (true, x)) :
    ∃ out, filter_response v [spec] = some out ∧ get_value out segs = (true, x) := by
  by_cases hne : spec = ""
  · subst hne
    rw [show parse_path_segments "" = some [] from rfl] at hparse
    exact absurd (Option.some.inj hparse).symm hnil
  by_cases hstar : spec = "*"
  · subst hstar
    refine ⟨v, ?_, hget⟩
    simp [filter_response, show py_strip "*" = "*" from rfl]
  cases v with
  | null => exact ⟨.null, filter_response_not_obj _ _ (by simp [vkind]), hget⟩
  | bool b => exact ⟨.bool b, filter_response_not_obj _ _ (by simp [vkind]), hget⟩
  | num n => exact ⟨.num n, filter_response_not_obj _ _ (by simp [vkind]), hget⟩
  | str s => exact ⟨.str s, filter_response_not_obj _ _ (by simp [vkind]), hget⟩
  | arr el => exact ⟨.arr el, filter_response_not_obj _ _ (by simp [vkind]), hget⟩
  | obj fields =>
      rw [filter_response_single fields spec hstrip hne hstar]
      rcases segs with _ | ⟨s0, srest⟩
      · exact absurd rfl hnil
      have hfind : List.findIdx? is_coll_seg (s0 :: srest) = none :=
        findIdx_none_of_simple _ hsimple
      cases s0 with
      | idx i => simp [get_value] at hget
      | iter => simp [simple_segs, List.all_cons, simple_seg] at hsimple
      | slice a b => simp [simple_segs, List.all_cons, simple_seg] at hsimple
      | key k0 =>
          obtain ⟨r, h1, h2⟩ := set_fresh (Seg.key k0 :: srest) x hsimple hnoii (by simp)
          simp only [head_seg, fresh_for] at h1
          refine ⟨r, ?_, h2⟩
          simp [apply_spec, hparse, hfind, hget, h1]

/-- Claim C3 witness: the amended round trip applied at
`{"a": [{"b": 7}]}` with path `"a.0.b"` (a Key–Index–Key path). -/
theorem claim_C3_witness :
    py_strip "a.0.b" = "a.0.b" ∧
    parse_path_segments "a.0.b" = some [Seg.key "a", Seg.idx 0, Seg.key "b"] ∧
    simple_segs [Seg.key "a", Seg.idx 0, Seg.key "b"] = true ∧
    no_idx_idx [Seg.key "a", Seg.idx 0, Seg.key "b"] = true ∧
    get_value (.obj [("a", .arr [.obj [("b", .num 7)]])])
      [Seg.key "a", Seg.idx 0, Seg.key "b"] = (true, .num 7) ∧
    ∃ out, filter_response (.obj [("a", .arr [.obj [("b", .num 7)]])]) ["a.0.b"] = some out ∧
      get_value out [Seg.key "a", Seg.idx 0, Seg.key "b"] = (true, .num 7) :=
  ⟨rfl, rfl, by decide, rfl, rfl,
    claim_C3_theorem (.obj [("a", .arr [.obj [("b", .num 7)]])]) "a.0.b"
      [Seg.key "a", Seg.idx 0, Seg.key "b"] (.num 7) rfl rfl (by simp) (by decide) rfl rfl⟩

theorem lookup_field_none_iff {α : Type} (f : List (String × α)) (k : String) :
    lookup_field f k = none ↔ k ∉ f.map Prod.fst := by
  induction f with
  | nil => simp [lookup_field]
  | cons p rest ih =>
      obtain ⟨k', v⟩ := p
      by_cases h : k' = k
      · simp [lookup_field, h]
      · simp [lookup_field, h, ih, Ne.symm h]

theorem lookup_field_some_mem {α : Type} {f : List (String × α)} {k : String} {v : α}
    (h : lookup_field f k = some v) : (k, v) ∈ f := by
  induction f with
  | nil => simp [lookup_field] at h
  | cons p rest ih =>
      obtain ⟨k', v'⟩ := p
      by_cases h' : k' = k
      · subst h'
        simp [lookup_field] at h
        simp [h]
      · simp [lookup_field, h'] at h
        simp [ih h]

theorem lookup_field_isSome_iff {α : Type} (f : List (String × α)) (k : String) :
    (lookup_field f k).isSome ↔ k ∈ f.map Prod.fst := by
  cases hl : lookup_field f k with
  | none =>
      simp only [Option.isSome_none, Bool.false_eq_true, false_iff]
      exact (lookup_field_none_iff f k).mp hl
  | some v =>
      simp only [Option.isSome_some, true_iff]
      exact List.mem_map.mpr ⟨(k, v), lookup_field_some_mem hl, rfl⟩

theorem mem_lookup_of_nodup {α : Type} {f : List (String × α)} {k : String} {v : α}
    (hnd : (f.map Prod.fst).Nodup) (h : (k, v) ∈ f) : lookup_field f k = some v := by
  induction f with
  | nil => simp at h
  | cons p rest ih =>
      obtain ⟨k', v'⟩ := p
      rw [List.map_cons, List.nodup_cons] at hnd
      rcases List.mem_cons.mp h with h | h
      · obtain ⟨h1, h2⟩ := Prod.ext_iff.mp h
        simp only at h1 h2
        subst h1; subst h2
        simp [lookup_field]
      · have hkk : k' ≠ k := by
          intro e
          subst e
          exact hnd.1 (List.mem_map.mpr ⟨(k', v), h, rfl⟩)
        simp [lookup_field, hkk]
        exact ih hnd.2 h

theorem nodup_keys_iff (l : List String) : nodup_keys l = true ↔ l.Nodup := by
  induction l with
  | nil => simp [nodup_keys]
  | cons k ks ih => simp [nodup_keys, ih, List.contains_iff_exists_mem_beq]

theorem py_eq_fields_iff (f1 f2 : List (String × Value)) :
    py_eq_fields f1 f2 = true ↔
      ∀ p ∈ f1, ∃ w, lookup_field f2 p.1 = some w ∧ py_eq p.2 w = true := by
  induction f1 with
  | nil => simp [py_eq_fields]
  | cons p rest ih =>
      obtain ⟨k, v⟩ := p
      rw [py_eq_fields]
      cases hl : lookup_field f2 k with
      | none => simp [ih, hl]
      | some w => simp [ih, hl]

theorem mem_insert_sorted (a x : String) (l : List String) :
    a ∈ insert_sorted x l ↔ a = x ∨ a ∈ l := by
  induction l with
  | nil => simp [insert_sorted]
  | cons y ys ih =>
      by_cases h : lt_str x y
      · simp [insert_sorted, h]
      · simp [insert_sorted, h, ih]
        tauto

theorem mem_sort_strs (a : String) (l : List String) : a ∈ sort_strs l ↔ a ∈ l := by
  induction l with
  | nil => simp [sort_strs]
  | cons x xs ih => simp [sort_strs, mem_insert_sorted, ih]

theorem mem_dedup_strs (a : String) (l : List String) : a ∈ dedup_strs l ↔ a ∈ l := by
  induction l with
  | nil => simp [dedup_strs]
  | cons x xs ih =>
      by_cases hx : x ∈ xs
      · simp [dedup_strs, hx, ih]
        intro ha
        subst ha
        exact hx
      · simp [dedup_strs, hx, ih]

theorem mem_all_keys (a : String) (old new : List (String × Value)) :
    a ∈ all_keys old new ↔ a ∈ old.map Prod.fst ∨ a ∈ new.map Prod.fst := by
  simp [all_keys, mem_sort_strs, mem_dedup_strs]

theorem wf_fields_lookup {f : List (String × Value)} {k : String} {v : Value}
    (hwf : wf_fields f = true) (h : lookup_field f k = some v) : wf_value v = true := by
  induction f with
  | nil => simp [lookup_field] at h
  | cons p rest ih =>
      obtain ⟨k', v'⟩ := p
      rw [wf_fields] at hwf
      simp at hwf
      by_cases h' : k' = k
      · simp [lookup_field, h'] at h
        subst h
        exact hwf.1
      · simp [lookup_field, h'] at h
        exact ih hwf.2 h

theorem ite_singleton_nil_iff {c : Prop} [Decidable c] {x : String} :
    ((if c then ([] : List String) else [x]) = []) ↔ c := by
  by_cases h : c <;> simp [h]

theorem py_eq_obj_iff (old new : List (String × Value)) :
    py_eq (.obj old) (.obj new) = true ↔
      old.length = new.length ∧ py_eq_fields old new = true := by
  show (old.length == new.length && py_eq_fields old new) = true ↔ _
  simp

theorem py_eq_keys_sub {old new : List (String × Value)}
    (hpe : py_eq (.obj old) (.obj new) = true) :
    ∀ k ∈ old.map Prod.fst, k ∈ new.map Prod.fst := by
  intro k hk
  obtain ⟨_, hf⟩ := (py_eq_obj_iff old new).mp hpe
  obtain ⟨v, hv⟩ := Option.isSome_iff_exists.mp ((lookup_field_isSome_iff old k).mpr hk)
  obtain ⟨w, hw, _⟩ := (py_eq_fields_iff old new).mp hf (k, v) (lookup_field_some_mem hv)
  exact (lookup_field_isSome_iff new k).mp (by simp [hw])

theorem keys_eq_of_py_eq {old new : List (String × Value)}
    (hndo : (old.map Prod.fst).Nodup) (hndn : (new.map Prod.fst).Nodup)
    (hpe : py_eq (.obj old) (.obj new) = true) (k : String) :
    k ∈ old.map Prod.fst ↔ k ∈ new.map Prod.fst := by
  constructor
  · exact py_eq_keys_sub hpe k
  · intro hk
    obtain ⟨hlen, _⟩ := (py_eq_obj_iff old new).mp hpe
    have hsub : (old.map Prod.fst).toFinset ⊆ (new.map Prod.fst).toFinset := by
      intro a ha
      rw [List.mem_toFinset] at ha ⊢
      exact py_eq_keys_sub hpe a ha
    have hle : (new.map Prod.fst).toFinset.card ≤ (old.map Prod.fst).toFinset.card := by
      rw [List.toFinset_card_of_nodup hndo, List.toFinset_card_of_nodup hndn]
      simp [hlen]
    have heq := Finset.eq_of_subset_of_card_le hsub hle
    have hmem : k ∈ (new.map Prod.fst).toFinset := List.mem_toFinset.mpr hk
    rw [← heq] at hmem
    exact List.mem_toFinset.mp hmem

theorem keys_ok_iff_py_eq (old new : List (String × Value))
    (hndo : (old.map Prod.fst).Nodup) (hndn : (new.map Prod.fst).Nodup) :
    (∀ k ∈ all_keys old new,
        (∃ ov nv, lookup_field old k = some ov ∧ lookup_field new k = some nv ∧
          py_eq ov nv = true) ∨
        (lookup_field old k = none ∧ lookup_field new k = none))
      ↔ py_eq (.obj old) (.obj new) = true := by
  constructor
  · intro h
    have hkeys : ∀ k, k ∈ old.map Prod.fst ↔ k ∈ new.map Prod.fst := by
      intro k
      constructor
      · intro hk
        rcases h k ((mem_all_keys k old new).mpr (Or.inl hk)) with ⟨ov, nv, _, hn, _⟩ | ⟨ho, _⟩
        · exact (lookup_field_isSome_iff new k).mp (by simp [hn])
        · exact absurd hk ((lookup_field_none_iff old k).mp ho)
      · intro hk
        rcases h k ((mem_all_keys k old new).mpr (Or.inr hk)) with ⟨ov, nv, ho, _, _⟩ | ⟨_, hn⟩
        · exact (lookup_field_isSome_iff old k).mp (by simp [ho])
        · exact absurd hk ((lookup_field_none_iff new k).mp hn)
    rw [py_eq_obj_iff]
    constructor
    · have hfin : (old.map Prod.fst).toFinset = (new.map Prod.fst).toFinset := by
        ext a
        simp only [List.mem_toFinset]
        exact hkeys a
      have hcard := congrArg Finset.card hfin
      rw [List.toFinset_card_of_nodup hndo, List.toFinset_card_of_nodup hndn] at hcard
      simpa using hcard
    · rw [py_eq_fields_iff]
      intro p hp
      obtain ⟨k, v⟩ := p
      have hk : k ∈ old.map Prod.fst := List.mem_map.mpr ⟨(k, v), hp, rfl⟩
      have hlo : lookup_field old k = some v := mem_lookup_of_nodup hndo hp
      rcases h k ((mem_all_keys k old new).mpr (Or.inl hk)) with ⟨ov, nv, ho, hn, hpe⟩ | ⟨ho, _⟩
      · rw [hlo] at ho
        obtain rfl : v = ov := Option.some.inj ho
        exact ⟨nv, hn, hpe⟩
      · rw [hlo] at ho
        cases ho
  · intro hpe k hak
    have hkeq := keys_eq_of_py_eq hndo hndn hpe
    obtain ⟨_, hf⟩ := (py_eq_obj_iff old new).mp hpe
    have hk : k ∈ old.map Prod.fst := by
      rcases (mem_all_keys k old new).mp hak with hk | hk
      · exact hk
      · exact (hkeq k).mpr hk
    obtain ⟨v, hv⟩ := Option.isSome_iff_exists.mp ((lookup_field_isSome_iff old k).mpr hk)
    obtain ⟨w, hw, hvw⟩ := (py_eq_fields_iff old new).mp hf (k, v) (lookup_field_some_mem hv)
    exact Or.inl ⟨v, w, hv, hw, hvw⟩

theorem wf_obj_parts {f : List (String × Value)} (h : wf_value (.obj f) = true) :
    (f.map Prod.fst).Nodup ∧ wf_fields f = true := by
  have h' : (nodup_keys (f.map Prod.fst) && wf_fields f) = true := h
  simp at h'
  exact ⟨(nodup_keys_iff _).mp h'.1, h'.2⟩

theorem diff_dicts_nil_iff :
    ∀ (pfx : String) (old new : List (String × Value)),
      wf_value (.obj old) = true → wf_value (.obj new) = true →
      (diff_dicts pfx old new = [] ↔ py_eq (.obj old) (.obj new) = true) := by
  refine diff_dicts.induct
    (fun pfx old new =>
      wf_value (.obj old) = true → wf_value (.obj new) = true →
      (diff_dicts pfx old new = [] ↔ py_eq (.obj old) (.obj new) = true))
    (fun pfx old new ks =>
      wf_value (.obj old) = true → wf_value (.obj new) = true →
      (diff_keys pfx old new ks = [] ↔
        ∀ k ∈ ks,
          (∃ ov nv, lookup_field old k = some ov ∧ lookup_field new k = some nv ∧
            py_eq ov nv = true) ∨
          (lookup_field old k = none ∧ lookup_field new k = none)))
    ?_ ?_ ?_
  · intro pfx old new h2 hwfo hwfn
    obtain ⟨hndo, _⟩ := wf_obj_parts hwfo
    obtain ⟨hndn, _⟩ := wf_obj_parts hwfn
    simp only [diff_dicts]
    rw [h2 hwfo hwfn]
    exact keys_ok_iff_py_eq old new hndo hndn
  · intro pfx old new hwfo hwfn
    simp [diff_keys]
  · intro pfx old new k ks ih1 ih2 hwfo hwfn
    have hrest := ih2 hwfo hwfn
    obtain ⟨hndo, hwfo'⟩ := wf_obj_parts hwfo
    obtain ⟨hndn, hwfn'⟩ := wf_obj_parts hwfn
    simp only [diff_keys]
    split <;> rename_i h1 h2 <;>
      first
      | (simp [h1, h2, hrest, ite_singleton_nil_iff, List.forall_mem_cons]; done)
      | (rename_i of nf
         have hih := ih1 of nf h1 h2 (wf_fields_lookup hwfo' h1) (wf_fields_lookup hwfn' h2)
         simp [h1, h2, hih, hrest, List.forall_mem_cons]
         done)

/-- **C9.** `diff_snapshot` returns the empty list exactly when the snapshot
and the live response are identical: the status codes are equal and the
bodies are equal under Python `==` (key-by-key over the sorted union of keys
when both bodies are objects, plain equality otherwise).  Stated for
well-formed bodies (objects with unique keys, as Python dicts guarantee). -/
theorem claim_C9_theorem (s : Snapshot) (r : RequestResult)
    (hs : wf_value s.body = true) (hr : wf_value r.body = true) :
    diff_snapshot s r = [] ↔
      (s.status_code = r.status_code ∧ py_eq s.body r.body = true) := by
  obtain ⟨sc, sh, sb⟩ := s
  obtain ⟨rc, rh, rb⟩ := r
  simp only at hs hr
  by_cases hst : sc = rc
  · rcases sb with _ | b | n | t | l | of <;> rcases rb with _ | b' | n' | t' | l' | nf <;>
      first
      | (simp [diff_snapshot, hst, ite_singleton_nil_iff, py_eq]; done)
      | (have hd := diff_dicts_nil_iff "body" of nf hs hr
         simp [diff_snapshot, hst, hd]
         done)
  · rcases sb with _ | b | n | t | l | of <;> rcases rb with _ | b' | n' | t' | l' | nf <;>
      (simp [diff_snapshot, hst, ite_eq_iff]; done)

/-- Concrete instance of C9: replaying a snapshot body unchanged gives an
empty diff, with both well-formedness hypotheses discharged by computation. -/
theorem claim_C9_witness :
    diff_snapshot
        ⟨200, [("X-Trace", "1")], Value.obj [("a", Value.num 1), ("b", Value.str "x")]⟩
        ⟨200, [], Value.obj [("b", Value.str "x"), ("a", Value.num 1)]⟩ = [] ↔
      ((200 : Int) = 200 ∧
        py_eq (Value.obj [("a", Value.num 1), ("b", Value.str "x")])
          (Value.obj [("b", Value.str "x"), ("a", Value.num 1)]) = true) :=
  claim_C9_theorem
    ⟨200, [("X-Trace", "1")], Value.obj [("a", Value.num 1), ("b", Value.str "x")]⟩
    ⟨200, [], Value.obj [("b", Value.str "x"), ("a", Value.num 1)]⟩
    (by rfl) (by rfl)

-- sanity checks (claim-level examples are stated as theorems below)
example : parse_path_segments "data[].id" = some [.key "data", .iter, .key "id"] := rfl

example : parse_path_segments "items[-1].id" = some [.key "items", .idx (-1), .key "id"] := rfl

example : parse_path_segments "items[1:3]" = some [.key "items", .slice (some 1) (some 3)] := rfl

example : parse_path_segments "headers[Content-Type]" = some [.key "headers", .key "Content-Type"] := rfl

example : parse_path_segments "body.items.2" = some [.key "body", .key "items", .idx 2] := rfl

example : parse_path_segments " a[2:] .b " = some [.key "a", .slice (some 2) none, .key "b"] := rfl

example : parse_path_segments "a[-:2]" = none := rfl

example :
    filter_response (.obj [("data", .arr [.obj [("id", .num 1), ("name", .str "A")],
                                          .obj [("id", .num 2), ("name", .str "B")]])])
      ["data[].id"] =
    some (.obj [("data", .arr [.obj [("id", .num 1)], .obj [("id", .num 2)]])]) := rfl

example :
    filter_response (.obj [("items", .arr [.obj [("id", .num 1)], .obj [("id", .num 2)],
                                           .obj [("id", .num 3)]])])
      ["items[-1].id"] =
    some (.obj [("items", .arr [.obj [("id", .num 3)]])]) := rfl

example :
    filter_response (.obj [("items", .arr [.obj [("id", .num 1)], .obj [("id", .num 2)],
                                           .obj [("id", .num 3)]])])
      ["items[1:3]"] =
    some (.obj [("items", .arr [.obj [("id", .num 2)], .obj [("id", .num 3)]])]) := rfl

example :
    filter_response (.obj [("Token", .str "abc")]) ["token"] =
    some (.obj [("token", .str "abc")]) := rfl

-- heap-model sanity: the run that mutates its input
example :
    (match filter_response_h (load_value [] (.obj [("a", .obj [("c", .num 1)])])).1
            (load_value [] (.obj [("a", .obj [("c", .num 1)])])).2 ["a", "a.C"] with
     | some (s1, _) => readback 100 s1 (load_value [] (.obj [("a", .obj [("c", .num 1)])])).2
     | none => none) =
    some (.obj [("a", .obj [("c", .num 1), ("C", .num 1)])]) := rfl

-- heap-model sanity: the output value agrees with the pure translation
example :
    (match filter_response_h (load_value [] (.obj [("a", .obj [("c", .num 1)])])).1
            (load_value [] (.obj [("a", .obj [("c", .num 1)])])).2 ["a", "a.C"] with
     | some (_, r) =>
        (match filter_response_h (load_value [] (.obj [("a", .obj [("c", .num 1)])])).1
            (load_value [] (.obj [("a", .obj [("c", .num 1)])])).2 ["a", "a.C"] with
         | some (s1, _) => readback 100 s1 r
         | none => none)
     | none => none) =
    filter_response (.obj [("a", .obj [("c", .num 1)])]) ["a", "a.C"] := rfl

end Reqcap
